import Mathlib

/-!
# Verification of the SiteOps streaming state and alert engine

A shallow embedding of the four stateful trackers of the repository
(`src/proximity.py`, `src/fall_detection.py`, `src/headcount.py`,
`src/registry.py`) together with proofs of the behavioural claims about
them.

Modelling conventions:

* Python floats (timestamps, coordinates, thresholds) are modelled as `ℚ`.
  All arithmetic performed by the embedded code is exact on the rationals.
* Python dicts are modelled as insertion-ordered association lists
  (`List (κ × α)`), with `lookupA` (first match), `insertA` (replace in
  place, else append — Python dict assignment semantics) and `List.filter`
  (deletion of a set of keys preserving order).
* `numpy.sqrt` appears in the source only immediately before a comparison
  against a nonnegative bound (`pixel_dist <= threshold` in
  `ProximityAnalyzer`, `dist < best_dist` / `best_dist < 500` in
  `VehicleRegistry.match_vehicle`).  Since `Real.sqrt` is monotone and both
  sides are nonnegative, each comparison is equivalent to the comparison of
  the squares; the embedding therefore computes squared Euclidean
  distances and compares them against squared bounds, staying inside `ℚ`.
  Consequently the `proximity_score` field of a warning holds the squared
  distance where the source stores the root; no claim concerns its value.
* Mutation of `self` is rendered as explicit state passing: every update
  function takes the state table and returns the new one next to the
  source's return value.
-/

namespace SiteOps

/-! ## Association lists: the embedding of Python dicts -/

/-- First-match lookup in an association list (Python `d[k]` / `k in d`). -/
def lookupA {κ α : Type} [DecidableEq κ] : List (κ × α) → κ → Option α
  | [], _ => none
  | kv :: rest, k => if kv.1 = k then some kv.2 else lookupA rest k

/-- Python dict assignment `d[k] = v`: replace the value at the first
occurrence of `k` in place, otherwise append the new binding at the end. -/
def insertA {κ α : Type} [DecidableEq κ] : List (κ × α) → κ → α → List (κ × α)
  | [], k, v => [(k, v)]
  | kv :: rest, k, v => if kv.1 = k then (k, v) :: rest else kv :: insertA rest k v

theorem lookupA_insertA_self {κ α : Type} [DecidableEq κ]
    (m : List (κ × α)) (k : κ) (v : α) :
    lookupA (insertA m k v) k = some v := by
  induction m with
  | nil => simp [insertA, lookupA]
  | cons kv rest ih =>
      by_cases h : kv.1 = k
      · simp [insertA, h, lookupA]
      · simp [insertA, h, lookupA, ih]

theorem lookupA_insertA_ne {κ α : Type} [DecidableEq κ]
    (m : List (κ × α)) (k k' : κ) (v : α) (h : k' ≠ k) :
    lookupA (insertA m k v) k' = lookupA m k' := by
  induction m with
  | nil => simp [insertA, lookupA, Ne.symm h]
  | cons kv rest ih =>
      by_cases hk : kv.1 = k
      · subst hk
        simp only [insertA, if_pos rfl]
        simp [lookupA, Ne.symm h]
      · simp only [insertA, if_neg hk]
        simp [lookupA, ih]

theorem lookupA_isSome_insertA {κ α : Type} [DecidableEq κ]
    (m : List (κ × α)) (k k' : κ) (v : α)
    (h : (lookupA m k').isSome) : (lookupA (insertA m k v) k').isSome := by
  by_cases hk : k' = k
  · subst hk; simp [lookupA_insertA_self]
  · rwa [lookupA_insertA_ne m k k' v hk]

/-- Keys present in an association list. -/
theorem mem_keys_of_lookupA {κ α : Type} [DecidableEq κ]
    {m : List (κ × α)} {k : κ} {v : α} (h : lookupA m k = some v) :
    (k, v) ∈ m := by
  induction m with
  | nil => simp [lookupA] at h
  | cons kv rest ih =>
      by_cases hk : kv.1 = k
      · simp only [lookupA, if_pos hk] at h
        obtain ⟨a, b⟩ := kv
        have ha : a = k := hk
        have hb : b = v := Option.some.inj h
        subst ha
        subst hb
        exact List.mem_cons_self _ _
      · simp only [lookupA, if_neg hk] at h
        exact List.mem_cons_of_mem _ (ih h)

theorem lookupA_eq_none_of_forall {κ α : Type} [DecidableEq κ]
    {m : List (κ × α)} {k : κ} (h : ∀ kv ∈ m, kv.1 ≠ k) :
    lookupA m k = none := by
  induction m with
  | nil => rfl
  | cons kv rest ih =>
      simp only [lookupA, if_neg (h kv (List.mem_cons_self kv rest))]
      exact ih fun kv' hm => h kv' (List.mem_cons_of_mem _ hm)

/-- Boolean list membership used by the cleanup filters (wrapping the
decidability instance so that it elaborates once). -/
def keyMemB {κ : Type} [DecidableEq κ] (act : List κ) (k : κ) : Bool :=
  decide (k ∈ act)

theorem keyMemB_eq_true {κ : Type} [DecidableEq κ] (act : List κ) (k : κ) :
    keyMemB act k = true ↔ k ∈ act := by
  simp [keyMemB]

/-- Deleting entries whose key satisfies a key-only predicate does not
change the lookup of a surviving key. -/
theorem lookupA_filter_keymem {κ α : Type} [DecidableEq κ]
    (m : List (κ × α)) (act : List κ) (k : κ) (hk : k ∈ act) :
    lookupA (m.filter fun kv => keyMemB act kv.1) k = lookupA m k := by
  induction m with
  | nil => rfl
  | cons kv rest ih =>
      by_cases hmem : kv.1 ∈ act
      · have hb : keyMemB act kv.1 = true := (keyMemB_eq_true act kv.1).mpr hmem
        by_cases hkk : kv.1 = k
        · subst hkk
          simp [List.filter_cons, hb, lookupA]
        · simp [List.filter_cons, hb, lookupA, hkk, ih]
      · have hb : ¬ keyMemB act kv.1 = true := fun h => hmem ((keyMemB_eq_true act kv.1).mp h)
        have hkk : kv.1 ≠ k := fun h => hmem (h ▸ hk)
        simp only [List.filter_cons, if_neg hb, lookupA, if_neg hkk]
        exact ih

/-- Deleting every entry whose key is outside `act` removes a key not in
`act` entirely. -/
theorem lookupA_filter_not_keymem {κ α : Type} [DecidableEq κ]
    (m : List (κ × α)) (act : List κ) (k : κ) (hk : k ∉ act) :
    lookupA (m.filter fun kv => keyMemB act kv.1) k = none := by
  apply lookupA_eq_none_of_forall
  intro kv hm
  have := List.of_mem_filter hm
  rw [keyMemB_eq_true] at this
  exact fun h => hk (h ▸ this)

/-- A filter that keeps the binding found by `lookupA` preserves that
lookup. -/
theorem lookupA_filter_of_true {κ α : Type} [DecidableEq κ]
    {m : List (κ × α)} {k : κ} {v : α} {p : κ × α → Bool}
    (h : lookupA m k = some v) (hp : p (k, v) = true) :
    lookupA (m.filter p) k = some v := by
  induction m with
  | nil => simp [lookupA] at h
  | cons kv rest ih =>
      by_cases hk : kv.1 = k
      · simp only [lookupA, if_pos hk] at h
        have hkv : kv = (k, v) := by cases kv; simp_all
        subst hkv
        simp [List.filter_cons, hp, lookupA]
      · simp only [lookupA, if_neg hk] at h
        by_cases hpkv : p kv = true
        · simp [List.filter_cons, hpkv, lookupA, hk, ih h]
        · simp only [List.filter_cons, Bool.not_eq_true] at hpkv ⊢
          rw [hpkv]
          exact ih h

/-- With duplicate-free keys (the Python dict invariant), a filter that
drops the binding found by `lookupA` removes the key entirely. -/
theorem lookupA_filter_of_false {κ α : Type} [DecidableEq κ]
    {m : List (κ × α)} {k : κ} {v : α} {p : κ × α → Bool}
    (hn : (m.map Prod.fst).Nodup)
    (h : lookupA m k = some v) (hp : p (k, v) = false) :
    lookupA (m.filter p) k = none := by
  induction m with
  | nil => simp [lookupA] at h
  | cons kv rest ih =>
      simp only [List.map_cons, List.nodup_cons] at hn
      by_cases hk : kv.1 = k
      · simp only [lookupA, if_pos hk] at h
        have hkv : kv = (k, v) := by cases kv; simp_all
        subst hkv
        simp only [List.filter_cons, hp]
        apply lookupA_eq_none_of_forall
        intro kv' hm'
        have : kv'.1 ∈ rest.map Prod.fst := List.mem_map_of_mem _ (List.mem_of_mem_filter hm')
        intro hkk
        exact hn.1 (by simpa [hkk] using this)
      · simp only [lookupA, if_neg hk] at h
        by_cases hpkv : p kv = true
        · simp [List.filter_cons, hpkv, lookupA, hk, ih hn.2 h]
        · simp only [List.filter_cons, Bool.not_eq_true] at hpkv ⊢
          rw [hpkv]
          exact ih hn.2 h

/-- The keys of `insertA m k v`: unchanged when `k` is already a key of
`m`, otherwise the keys of `m` followed by `k`. -/
theorem keys_insertA {κ α : Type} [DecidableEq κ]
    (m : List (κ × α)) (k : κ) (v : α) :
    (insertA m k v).map Prod.fst =
      if k ∈ m.map Prod.fst then m.map Prod.fst else m.map Prod.fst ++ [k] := by
  induction m with
  | nil => simp [insertA]
  | cons kv rest ih =>
      by_cases hk : kv.1 = k
      · subst hk
        simp [insertA]
      · have hne : ¬ k = kv.1 := fun h => hk h.symm
        simp only [insertA, if_neg hk, List.map_cons, ih, List.mem_cons, hne, false_or]
        by_cases h : k ∈ rest.map Prod.fst <;> simp [h]

theorem keys_insertA_nodup {κ α : Type} [DecidableEq κ]
    (m : List (κ × α)) (k : κ) (v : α) (hn : (m.map Prod.fst).Nodup) :
    ((insertA m k v).map Prod.fst).Nodup := by
  rw [keys_insertA]
  by_cases h : k ∈ m.map Prod.fst
  · simpa [h] using hn
  · simp [h, List.nodup_append, hn]

/-! ## Entity model (`src/tracking.py`, `TrackedObject`) -/

/-- A tracked object with a stable id, as produced by `ObjectTracker`.
The source stores `bbox_xyxy` as a numpy array `[x1, y1, x2, y2]`;
we store the four coordinates as a tuple of rationals. -/
structure TrackedObject where
  track_id : Int
  bbox_xyxy : ℚ × ℚ × ℚ × ℚ
  confidence : ℚ
  class_id : Int
  class_name : String
  center : ℚ × ℚ
deriving Repr, DecidableEq

/-! ## Proximity analysis (`src/proximity.py`) -/

/-- State of a person-vehicle proximity relationship (`ProximityState`). -/
structure ProximityState where
  person_id : Int
  vehicle_id : Int
  first_close_time : Option ℚ := none
  last_close_time : Option ℚ := none
  accumulated_duration : ℚ := 0
  is_alerted : Bool := false
  last_alert_time : Option ℚ := none
deriving Repr, DecidableEq

/-- Proximity warning event (`ProximityWarning`).  `proximity_score` holds
the squared pixel distance (the source stores the square root; see the
header comment on the squared-distance convention). -/
structure ProximityWarning where
  person_id : Int
  vehicle_id : Int
  proximity_score : ℚ
  duration_s : ℚ
  timestamp : ℚ
  person_center : ℚ × ℚ
  vehicle_center : ℚ × ℚ
deriving Repr, DecidableEq

/-- The configuration attributes of `ProximityAnalyzer.__init__`.  The
mutable `states` dict is passed explicitly to `update`. -/
structure ProximityAnalyzer where
  pixel_threshold : ℚ
  min_duration_s : ℚ
  cooldown_s : ℚ
deriving Repr, DecidableEq

/-- The state table `self.states : Dict[Tuple[int, int], ProximityState]`. -/
abbrev PTable : Type := List ((Int × Int) × ProximityState)

/-- Squared Euclidean distance between two planar points. -/
def distSqPt (a b : ℚ × ℚ) : ℚ := (a.1 - b.1) ^ 2 + (a.2 - b.2) ^ 2

theorem distSqPt_nonneg (a b : ℚ × ℚ) : 0 ≤ distSqPt a b :=
  add_nonneg (sq_nonneg _) (sq_nonneg _)

theorem distSqPt_self (a : ℚ × ℚ) : distSqPt a a = 0 := by
  simp [distSqPt]

/-- `ProximityAnalyzer.compute_pixel_distance`, squared: the source
returns `sqrt ((px-vx)^2 + (py-vy)^2)`; we keep the radicand. -/
def computePixelDistanceSq (person vehicle : TrackedObject) : ℚ :=
  distSqPt person.center vehicle.center

/-- The body of the inner per-pair loop of `ProximityAnalyzer.update`,
acting on the (possibly absent) state of the current pair.  Returns the
pair's new state together with the warnings it appends (`[]` or one
element).  All comparisons against `pixel_threshold` are performed on
squared distances (`sqrt d ≤ c ↔ d ≤ c²` for `c ≥ 0`). -/
def proximityStepOne (cfg : ProximityAnalyzer) (t : ℚ)
    (person vehicle : TrackedObject) (os : Option ProximityState) :
    ProximityState × List ProximityWarning :=
  -- `self.states[pair_key] = ProximityState(person_id=..., vehicle_id=...)`
  let s0 : ProximityState := os.getD
    { person_id := person.track_id, vehicle_id := vehicle.track_id }
  let pixel_dist_sq := computePixelDistanceSq person vehicle
  if pixel_dist_sq ≤ cfg.pixel_threshold ^ 2 then
    -- objects are close
    let fct := s0.first_close_time.getD t
    let s1 := { s0 with first_close_time := some fct, last_close_time := some t }
    let duration := t - fct
    if cfg.min_duration_s ≤ duration then
      let can_alert : Bool :=
        match s1.last_alert_time with
        | none => true
        | some la => decide (cfg.cooldown_s ≤ t - la)
      if can_alert then
        ({ s1 with is_alerted := true, last_alert_time := some t },
         [{ person_id := person.track_id
            vehicle_id := vehicle.track_id
            proximity_score := pixel_dist_sq
            duration_s := duration
            timestamp := t
            person_center := person.center
            vehicle_center := vehicle.center }])
      else (s1, [])
    else (s1, [])
  else
    -- objects not close - reset state
    ({ s0 with first_close_time := none, last_close_time := none, is_alerted := false }, [])

/-- One iteration of the nested `for person in people: for vehicle in
vehicles:` loop: mutate the state table at the pair key and append any
warning. -/
def proximityPairStep (cfg : ProximityAnalyzer) (t : ℚ)
    (acc : PTable × List ProximityWarning) (pv : TrackedObject × TrackedObject) :
    PTable × List ProximityWarning :=
  let key := (pv.1.track_id, pv.2.track_id)
  let r := proximityStepOne cfg t pv.1 pv.2 (lookupA acc.1 key)
  (insertA acc.1 key r.1, acc.2 ++ r.2)

/-- `ProximityAnalyzer.update`.  The `depth_map` parameter of the source
is unused by the function body and is omitted.  Returns the new state
table together with the list of warnings (the source mutates
`self.states` and returns the warnings). -/
def ProximityAnalyzer.update (cfg : ProximityAnalyzer)
    (people vehicles : List TrackedObject) (states : PTable) (current_time : ℚ) :
    PTable × List ProximityWarning :=
  let pairs := people.flatMap fun p => vehicles.map fun v => (p, v)
  let r := pairs.foldl (proximityPairStep cfg current_time) (states, [])
  -- clean up old states: delete every key not among this frame's pairs
  let active_pairs := pairs.map fun pv => (pv.1.track_id, pv.2.track_id)
  (r.1.filter fun kv => keyMemB active_pairs kv.1, r.2)

/-- Iterated singleton updates: one fixed person-vehicle pair observed at
the times `times 0, times 1, ...` with per-step positions.  `proximityRun
cfg p v times st0 i` is the pair `(state table after step i, warnings
emitted at step i)`. -/
def proximityRun (cfg : ProximityAnalyzer) (p v : ℕ → TrackedObject)
    (times : ℕ → ℚ) (st0 : PTable) : ℕ → PTable × List ProximityWarning
  | 0 => ProximityAnalyzer.update cfg [p 0] [v 0] st0 (times 0)
  | n + 1 =>
      ProximityAnalyzer.update cfg [p (n + 1)] [v (n + 1)]
        (proximityRun cfg p v times st0 n).1 (times (n + 1))

/-- The pair's state as seen by the loop body: the stored state if the key
is present, otherwise the freshly created default
(`ProximityState(person_id=..., vehicle_id=...)`). -/
def pairInit (st0 : PTable) (pid vid : Int) : ProximityState :=
  (lookupA st0 (pid, vid)).getD { person_id := pid, vehicle_id := vid }

/-- `update` on singleton entity lists reduces to one loop-body step at the
pair key followed by the cleanup filter. -/
theorem update_singleton (cfg : ProximityAnalyzer) (p v : TrackedObject)
    (st : PTable) (t : ℚ) :
    ProximityAnalyzer.update cfg [p] [v] st t =
      ((insertA st (p.track_id, v.track_id)
          (proximityStepOne cfg t p v (lookupA st (p.track_id, v.track_id))).1).filter
        (fun kv => keyMemB [(p.track_id, v.track_id)] kv.1),
       (proximityStepOne cfg t p v (lookupA st (p.track_id, v.track_id))).2) := by
  simp [ProximityAnalyzer.update, proximityPairStep]

theorem update_singleton_fst (cfg : ProximityAnalyzer) (p v : TrackedObject)
    (st : PTable) (t : ℚ) :
    (ProximityAnalyzer.update cfg [p] [v] st t).1
      = (insertA st (p.track_id, v.track_id)
          (proximityStepOne cfg t p v (lookupA st (p.track_id, v.track_id))).1).filter
        (fun kv => keyMemB [(p.track_id, v.track_id)] kv.1) := by
  simp [ProximityAnalyzer.update, proximityPairStep]

theorem update_singleton_lookup (cfg : ProximityAnalyzer) (p v : TrackedObject)
    (st : PTable) (t : ℚ) :
    lookupA (ProximityAnalyzer.update cfg [p] [v] st t).1 (p.track_id, v.track_id)
      = some (proximityStepOne cfg t p v (lookupA st (p.track_id, v.track_id))).1 := by
  rw [update_singleton_fst]
  exact (lookupA_filter_keymem _ [(p.track_id, v.track_id)] (p.track_id, v.track_id)
    (List.mem_singleton_self _)).trans (lookupA_insertA_self _ _ _)

theorem update_singleton_warnings (cfg : ProximityAnalyzer) (p v : TrackedObject)
    (st : PTable) (t : ℚ) :
    (ProximityAnalyzer.update cfg [p] [v] st t).2
      = (proximityStepOne cfg t p v (lookupA st (p.track_id, v.track_id))).2 := by
  simp [ProximityAnalyzer.update, proximityPairStep]

/-- Entering closeness (`first_close_time` unset) while `min_duration_s`
is positive: the close timer starts and no warning is emitted. -/
theorem stepOne_enter (cfg : ProximityAnalyzer) (t : ℚ)
    (p v : TrackedObject) (os : Option ProximityState)
    (hfc : (os.getD { person_id := p.track_id, vehicle_id := v.track_id }).first_close_time = none)
    (hclose : computePixelDistanceSq p v ≤ cfg.pixel_threshold ^ 2)
    (hmin : 0 < cfg.min_duration_s) :
    proximityStepOne cfg t p v os =
      ({ os.getD { person_id := p.track_id, vehicle_id := v.track_id } with
          first_close_time := some t, last_close_time := some t }, []) := by
  simp [proximityStepOne, hclose, hfc, not_le.mpr hmin]

/-- Entering closeness when `min_duration_s ≤ 0` and the cooldown allows
it: the warning fires immediately with duration `0`. -/
theorem stepOne_enter_fire (cfg : ProximityAnalyzer) (t : ℚ)
    (p v : TrackedObject) (os : Option ProximityState)
    (hfc : (os.getD { person_id := p.track_id, vehicle_id := v.track_id }).first_close_time = none)
    (hclose : computePixelDistanceSq p v ≤ cfg.pixel_threshold ^ 2)
    (hmin : cfg.min_duration_s ≤ 0)
    (hcool : (os.getD { person_id := p.track_id, vehicle_id := v.track_id }).last_alert_time = none
      ∨ ∃ la, (os.getD { person_id := p.track_id, vehicle_id := v.track_id }).last_alert_time = some la
          ∧ cfg.cooldown_s ≤ t - la) :
    proximityStepOne cfg t p v os =
      ({ os.getD { person_id := p.track_id, vehicle_id := v.track_id } with
          first_close_time := some t
          last_close_time := some t
          is_alerted := true
          last_alert_time := some t },
       [{ person_id := p.track_id
          vehicle_id := v.track_id
          proximity_score := computePixelDistanceSq p v
          duration_s := 0
          timestamp := t
          person_center := p.center
          vehicle_center := v.center }]) := by
  rcases hcool with hla | ⟨la, hla, hc⟩
  · simp [proximityStepOne, hclose, hfc, hla, hmin]
  · simp [proximityStepOne, hclose, hfc, hla, hmin, hc]

/-- Remaining close before the duration threshold: timer refreshed, no
warning. -/
theorem stepOne_hold (cfg : ProximityAnalyzer) (t t0 : ℚ)
    (p v : TrackedObject) (s : ProximityState)
    (hfc : s.first_close_time = some t0)
    (hclose : computePixelDistanceSq p v ≤ cfg.pixel_threshold ^ 2)
    (hdur : t - t0 < cfg.min_duration_s) :
    proximityStepOne cfg t p v (some s) =
      ({ s with first_close_time := some t0, last_close_time := some t }, []) := by
  simp [proximityStepOne, hclose, hfc, not_le.mpr hdur]

/-- Crossing the duration threshold with the cooldown satisfied: exactly
one warning is emitted and the alert fields are set. -/
theorem stepOne_fire (cfg : ProximityAnalyzer) (t t0 : ℚ)
    (p v : TrackedObject) (s : ProximityState)
    (hfc : s.first_close_time = some t0)
    (hclose : computePixelDistanceSq p v ≤ cfg.pixel_threshold ^ 2)
    (hdur : cfg.min_duration_s ≤ t - t0)
    (hcool : s.last_alert_time = none
      ∨ ∃ la, s.last_alert_time = some la ∧ cfg.cooldown_s ≤ t - la) :
    proximityStepOne cfg t p v (some s) =
      ({ s with
          first_close_time := some t0
          last_close_time := some t
          is_alerted := true
          last_alert_time := some t },
       [{ person_id := p.track_id
          vehicle_id := v.track_id
          proximity_score := computePixelDistanceSq p v
          duration_s := t - t0
          timestamp := t
          person_center := p.center
          vehicle_center := v.center }]) := by
  rcases hcool with hla | ⟨la, hla, hc⟩
  · simp [proximityStepOne, hclose, hfc, hla, hdur]
  · simp [proximityStepOne, hclose, hfc, hla, hdur, hc]

/-- Within the cooldown window no warning can be emitted and the
`last_alert_time` is left unchanged, whatever else the step does. -/
theorem stepOne_cooldown_blocked (cfg : ProximityAnalyzer) (t la : ℚ)
    (p v : TrackedObject) (s : ProximityState)
    (hla : s.last_alert_time = some la)
    (hc : t - la < cfg.cooldown_s) :
    (proximityStepOne cfg t p v (some s)).2 = []
      ∧ (proximityStepOne cfg t p v (some s)).1.last_alert_time = some la := by
  simp only [proximityStepOne, Option.getD_some, hla]
  split_ifs with h1 h2 h3
  · exact absurd (of_decide_eq_true h3) (not_le.mpr hc)
  · simp [hla]
  · simp [hla]
  · simp [hla]

/-- Distance above the threshold: the closeness fields are cleared,
`is_alerted` is set to `false`, everything else is untouched and no
warning is emitted. -/
theorem stepOne_reset (cfg : ProximityAnalyzer) (t : ℚ)
    (p v : TrackedObject) (s : ProximityState)
    (hfar : ¬ computePixelDistanceSq p v ≤ cfg.pixel_threshold ^ 2) :
    proximityStepOne cfg t p v (some s) =
      ({ s with
          first_close_time := none
          last_close_time := none
          is_alerted := false }, []) := by
  simp [proximityStepOne, hfar]

/-- Claim C1: duration gating for proximity warnings.  For a pair whose
(squared) center distance stays within the threshold at every update and
whose state starts with `first_close_time` unset, no warning is emitted at
any update strictly before `times 0 + min_duration_s`, and the first
update at or after that instant emits exactly one warning — provided the
pair's cooldown is satisfied there (`last_alert_time` unset or at least
`cooldown_s` in the past). -/
theorem proximity_duration_gating
    (cfg : ProximityAnalyzer) (p v : ℕ → TrackedObject) (times : ℕ → ℚ)
    (st0 : PTable) (pid vid : Int) (n : ℕ)
    (hp : ∀ i, (p i).track_id = pid) (hv : ∀ i, (v i).track_id = vid)
    (hclose : ∀ i, i ≤ n →
      computePixelDistanceSq (p i) (v i) ≤ cfg.pixel_threshold ^ 2)
    (hfc : (pairInit st0 pid vid).first_close_time = none)
    (hcool : (pairInit st0 pid vid).last_alert_time = none
      ∨ ∃ la, (pairInit st0 pid vid).last_alert_time = some la
          ∧ cfg.cooldown_s ≤ times n - la)
    (hbefore : ∀ i, i < n → times i < times 0 + cfg.min_duration_s)
    (hfire : times 0 + cfg.min_duration_s ≤ times n) :
    (∀ i, i < n → (proximityRun cfg p v times st0 i).2 = []) ∧
    (proximityRun cfg p v times st0 n).2 =
      [{ person_id := pid
         vehicle_id := vid
         proximity_score := computePixelDistanceSq (p n) (v n)
         duration_s := times n - times 0
         timestamp := times n
         person_center := (p n).center
         vehicle_center := (v n).center }] := by
  have hInv : ∀ i, i < n →
      lookupA (proximityRun cfg p v times st0 i).1 (pid, vid)
        = some { pairInit st0 pid vid with
                  first_close_time := some (times 0)
                  last_close_time := some (times i) }
      ∧ (proximityRun cfg p v times st0 i).2 = [] := by
    intro i
    induction i with
    | zero =>
        intro h0
        have hmin : 0 < cfg.min_duration_s := by
          have := hbefore 0 h0
          linarith
        have e1 := update_singleton_lookup cfg (p 0) (v 0) st0 (times 0)
        have e2 := update_singleton_warnings cfg (p 0) (v 0) st0 (times 0)
        simp only [hp, hv] at e1 e2
        have e3 := stepOne_enter cfg (times 0) (p 0) (v 0) (lookupA st0 (pid, vid))
          (by simp only [hp, hv]; exact hfc)
          (hclose 0 (Nat.zero_le n)) hmin
        simp only [hp, hv] at e3
        rw [e3] at e1 e2
        exact ⟨e1, e2⟩
    | succ i ih =>
        intro hsucc
        have hi : i < n := Nat.lt_of_succ_lt hsucc
        obtain ⟨ih1, _⟩ := ih hi
        have e1 := update_singleton_lookup cfg (p (i + 1)) (v (i + 1))
          (proximityRun cfg p v times st0 i).1 (times (i + 1))
        have e2 := update_singleton_warnings cfg (p (i + 1)) (v (i + 1))
          (proximityRun cfg p v times st0 i).1 (times (i + 1))
        simp only [hp, hv] at e1 e2
        rw [ih1] at e1 e2
        have hdur : times (i + 1) - times 0 < cfg.min_duration_s := by
          have := hbefore (i + 1) hsucc
          linarith
        have e3 := stepOne_hold cfg (times (i + 1)) (times 0) (p (i + 1)) (v (i + 1))
          { pairInit st0 pid vid with
              first_close_time := some (times 0)
              last_close_time := some (times i) }
          rfl (hclose (i + 1) (Nat.le_of_lt hsucc)) hdur
        rw [e3] at e1 e2
        exact ⟨e1, e2⟩
  refine ⟨fun i hi => (hInv i hi).2, ?_⟩
  cases n with
  | zero =>
      have hmin : cfg.min_duration_s ≤ 0 := by linarith
      have e2 := update_singleton_warnings cfg (p 0) (v 0) st0 (times 0)
      simp only [hp, hv] at e2
      have e3 := stepOne_enter_fire cfg (times 0) (p 0) (v 0) (lookupA st0 (pid, vid))
        (by simp only [hp, hv]; exact hfc)
        (hclose 0 (Nat.zero_le 0)) hmin
        (by simp only [hp, hv]; exact hcool)
      simp only [hp, hv] at e3
      rw [e3] at e2
      rw [show proximityRun cfg p v times st0 0
            = ProximityAnalyzer.update cfg [p 0] [v 0] st0 (times 0) from rfl]
      rw [e2]
      simp [sub_self]
  | succ m =>
      have hm : m < m + 1 := Nat.lt_succ_self m
      obtain ⟨ih1, _⟩ := hInv m hm
      have e2 := update_singleton_warnings cfg (p (m + 1)) (v (m + 1))
        (proximityRun cfg p v times st0 m).1 (times (m + 1))
      simp only [hp, hv] at e2
      rw [ih1] at e2
      have hdur : cfg.min_duration_s ≤ times (m + 1) - times 0 := by linarith
      have e3 := stepOne_fire cfg (times (m + 1)) (times 0) (p (m + 1)) (v (m + 1))
        { pairInit st0 pid vid with
            first_close_time := some (times 0)
            last_close_time := some (times m) }
        rfl (hclose (m + 1) le_rfl) hdur hcool
      rw [e3] at e2
      simp only [hp, hv] at e2
      exact e2

/-- If a loop-body step emitted a warning, the resulting pair state has
`last_alert_time` set to the current time. -/
theorem stepOne_alerted_of_warned (cfg : ProximityAnalyzer) (t : ℚ)
    (p v : TrackedObject) (os : Option ProximityState)
    (h : (proximityStepOne cfg t p v os).2 ≠ []) :
    (proximityStepOne cfg t p v os).1.last_alert_time = some t := by
  simp only [proximityStepOne] at h ⊢
  split_ifs at h ⊢ <;> simp_all

/-- Claim C6: cooldown suppression.  If the update at `times 0` emitted a
warning for the pair, then every later update of the run whose time is
strictly before `times 0 + cooldown_s` emits no warning for it, even
though the pair stays continuously within the threshold. -/
theorem proximity_cooldown_suppression
    (cfg : ProximityAnalyzer) (p v : ℕ → TrackedObject) (times : ℕ → ℚ)
    (st0 : PTable) (pid vid : Int) (n : ℕ)
    (hp : ∀ i, (p i).track_id = pid) (hv : ∀ i, (v i).track_id = vid)
    (_hclose : ∀ i, i ≤ n →
      computePixelDistanceSq (p i) (v i) ≤ cfg.pixel_threshold ^ 2)
    (halert : (proximityRun cfg p v times st0 0).2 ≠ [])
    (hin : ∀ i, 1 ≤ i → i ≤ n → times i < times 0 + cfg.cooldown_s) :
    ∀ i, 1 ≤ i → i ≤ n → (proximityRun cfg p v times st0 i).2 = [] := by
  have h0 : lookupA (proximityRun cfg p v times st0 0).1 (pid, vid)
      = some (proximityStepOne cfg (times 0) (p 0) (v 0) (lookupA st0 (pid, vid))).1 := by
    have e := update_singleton_lookup cfg (p 0) (v 0) st0 (times 0)
    simp only [hp, hv] at e
    exact e
  have hw0 : (proximityStepOne cfg (times 0) (p 0) (v 0) (lookupA st0 (pid, vid))).2 ≠ [] := by
    have e := update_singleton_warnings cfg (p 0) (v 0) st0 (times 0)
    simp only [hp, hv] at e
    rw [show proximityRun cfg p v times st0 0
          = ProximityAnalyzer.update cfg [p 0] [v 0] st0 (times 0) from rfl, e] at halert
    exact halert
  have hla0 := stepOne_alerted_of_warned cfg (times 0) (p 0) (v 0)
    (lookupA st0 (pid, vid)) hw0
  have inv : ∀ i, 1 ≤ i → i ≤ n →
      (∃ s, lookupA (proximityRun cfg p v times st0 i).1 (pid, vid) = some s
        ∧ s.last_alert_time = some (times 0))
      ∧ (proximityRun cfg p v times st0 i).2 = [] := by
    intro i
    induction i with
    | zero => exact fun h1 _ => absurd h1 (by omega)
    | succ i ih =>
        intro _ hle
        have step : ∀ s : ProximityState,
            lookupA (proximityRun cfg p v times st0 i).1 (pid, vid) = some s →
            s.last_alert_time = some (times 0) →
            (∃ s', lookupA (proximityRun cfg p v times st0 (i + 1)).1 (pid, vid) = some s'
              ∧ s'.last_alert_time = some (times 0))
            ∧ (proximityRun cfg p v times st0 (i + 1)).2 = [] := by
          intro s hs hsla
          have e1 := update_singleton_lookup cfg (p (i + 1)) (v (i + 1))
            (proximityRun cfg p v times st0 i).1 (times (i + 1))
          have e2 := update_singleton_warnings cfg (p (i + 1)) (v (i + 1))
            (proximityRun cfg p v times st0 i).1 (times (i + 1))
          simp only [hp, hv] at e1 e2
          rw [hs] at e1 e2
          have hc : times (i + 1) - times 0 < cfg.cooldown_s := by
            have := hin (i + 1) (by omega) hle
            linarith
          have hb := stepOne_cooldown_blocked cfg (times (i + 1)) (times 0)
            (p (i + 1)) (v (i + 1)) s hsla hc
          exact ⟨⟨_, e1, hb.2⟩, e2.trans hb.1⟩
        cases Nat.eq_zero_or_pos i with
        | inl hz =>
            subst hz
            exact step _ h0 hla0
        | inr hpos =>
            obtain ⟨⟨s, hs, hsla⟩, _⟩ := ih hpos (by omega)
            exact step s hs hsla
  exact fun i h1 h2 => (inv i h1 h2).2

/-- Claim C7: reset on departure.  On an update where the co-present
pair's distance exceeds the threshold, exactly the closeness fields are
cleared and `is_alerted` is set to `false`; the entry stays in the table,
`last_alert_time` (and every other field) is unchanged, no warning is
emitted, and on a next qualifying frame the timer restarts at zero so an
alert needs `min_duration_s` to re-accrue. -/
theorem proximity_reset_on_departure
    (cfg : ProximityAnalyzer) (p v : TrackedObject) (st : PTable) (t : ℚ)
    (s : ProximityState)
    (hs : lookupA st (p.track_id, v.track_id) = some s)
    (hfar : ¬ computePixelDistanceSq p v ≤ cfg.pixel_threshold ^ 2) :
    (ProximityAnalyzer.update cfg [p] [v] st t).2 = []
    ∧ lookupA (ProximityAnalyzer.update cfg [p] [v] st t).1 (p.track_id, v.track_id)
        = some { s with
            first_close_time := none
            last_close_time := none
            is_alerted := false }
    ∧ (∀ (p2 v2 : TrackedObject) (t2 : ℚ),
        p2.track_id = p.track_id → v2.track_id = v.track_id →
        computePixelDistanceSq p2 v2 ≤ cfg.pixel_threshold ^ 2 →
        0 < cfg.min_duration_s →
        (ProximityAnalyzer.update cfg [p2] [v2]
            (ProximityAnalyzer.update cfg [p] [v] st t).1 t2).2 = []
        ∧ lookupA (ProximityAnalyzer.update cfg [p2] [v2]
              (ProximityAnalyzer.update cfg [p] [v] st t).1 t2).1
            (p.track_id, v.track_id)
          = some { s with
              first_close_time := some t2
              last_close_time := some t2
              is_alerted := false }) := by
  have e1 := update_singleton_lookup cfg p v st t
  have e2 := update_singleton_warnings cfg p v st t
  rw [hs, stepOne_reset cfg t p v s hfar] at e1 e2
  refine ⟨e2, e1, ?_⟩
  intro p2 v2 t2 hp2 hv2 hclose2 hmin
  have f1 := update_singleton_lookup cfg p2 v2
    (ProximityAnalyzer.update cfg [p] [v] st t).1 t2
  have f2 := update_singleton_warnings cfg p2 v2
    (ProximityAnalyzer.update cfg [p] [v] st t).1 t2
  simp only [hp2, hv2] at f1 f2
  rw [e1] at f1 f2
  have f3 := stepOne_enter cfg t2 p2 v2
    (some { s with
        first_close_time := none
        last_close_time := none
        is_alerted := false })
    rfl hclose2 hmin
  rw [f3] at f1 f2
  exact ⟨f2, f1⟩

/-- The per-pair loop never removes a key from the state table. -/
theorem foldl_pairStep_isSome (cfg : ProximityAnalyzer) (t : ℚ)
    (pairs : List (TrackedObject × TrackedObject)) (k : Int × Int) :
    ∀ acc : PTable × List ProximityWarning, (lookupA acc.1 k).isSome →
      (lookupA (pairs.foldl (proximityPairStep cfg t) acc).1 k).isSome := by
  induction pairs with
  | nil => exact fun acc h => h
  | cons pv rest ih =>
      intro acc h
      refine ih _ ?_
      exact lookupA_isSome_insertA _ _ _ _ h

/-- Keys among this frame's active pairs. -/
theorem mem_active_iff (people vehicles : List TrackedObject) (k : Int × Int) :
    k ∈ ((people.flatMap fun p => vehicles.map fun v => (p, v)).map
          fun pv => (pv.1.track_id, pv.2.track_id))
      ↔ ∃ p ∈ people, ∃ veh ∈ vehicles, p.track_id = k.1 ∧ veh.track_id = k.2 := by
  constructor
  · intro hk
    simp only [List.mem_map, List.mem_flatMap] at hk
    obtain ⟨pv, ⟨pa, hpa, w, hw, hww⟩, hk⟩ := hk
    subst hww
    exact ⟨pa, hpa, w, hw, congrArg Prod.fst hk, congrArg Prod.snd hk⟩
  · rintro ⟨pa, hpa, w, hw, h1, h2⟩
    simp only [List.mem_map, List.mem_flatMap]
    exact ⟨(pa, w), ⟨pa, hpa, w, hw, rfl⟩, Prod.ext_iff.mpr ⟨h1, h2⟩⟩

/-- Claim C3 (amended): a pair's state entry is deleted exactly on an
update in which the pair is not co-present, i.e. at least one of the two
entities is absent; co-presence of both keeps the entry. -/
theorem proximity_pair_deleted_iff
    (cfg : ProximityAnalyzer) (people vehicles : List TrackedObject)
    (st : PTable) (t : ℚ) (k : Int × Int) (s : ProximityState)
    (hs : lookupA st k = some s) :
    lookupA (ProximityAnalyzer.update cfg people vehicles st t).1 k = none
      ↔ ¬ ∃ p ∈ people, ∃ veh ∈ vehicles, p.track_id = k.1 ∧ veh.track_id = k.2 := by
  have hfst : (ProximityAnalyzer.update cfg people vehicles st t).1 =
      ((people.flatMap fun p => vehicles.map fun v => (p, v)).foldl
        (proximityPairStep cfg t) (st, [])).1.filter
      (fun kv => keyMemB ((people.flatMap fun p => vehicles.map fun v => (p, v)).map
        fun pv => (pv.1.track_id, pv.2.track_id)) kv.1) := rfl
  rw [hfst, ← mem_active_iff people vehicles k]
  constructor
  · intro hnone hmem
    have hsome := foldl_pairStep_isSome cfg t
      (people.flatMap fun p => vehicles.map fun v => (p, v)) k (st, [])
      (by simp [hs])
    rw [lookupA_filter_keymem _ _ _ hmem] at hnone
    rw [hnone] at hsome
    exact absurd hsome (by simp)
  · intro hmem
    exact lookupA_filter_not_keymem _ _ _ hmem

/-! ### Concrete scenario data (spec §8): pixel_threshold=200,
min_duration=2.0, cooldown=5.0, centers a constant 150 px apart. -/

/-- The scenario configuration. -/
def proxCfgW : ProximityAnalyzer :=
  { pixel_threshold := 200, min_duration_s := 2, cooldown_s := 5 }

def personW : TrackedObject :=
  { track_id := 1, bbox_xyxy := (0, 0, 10, 30), confidence := 1,
    class_id := 0, class_name := "person", center := (0, 0) }

def vehicleW : TrackedObject :=
  { track_id := 2, bbox_xyxy := (100, 0, 200, 40), confidence := 1,
    class_id := 7, class_name := "truck", center := (150, 0) }

/-- A person far away from `vehicleW` (distance 1000 px). -/
def personFarW : TrackedObject :=
  { track_id := 1, bbox_xyxy := (0, 0, 10, 30), confidence := 1,
    class_id := 0, class_name := "person", center := (1150, 0) }

/-- The scenario pair stays 150 px apart, inside the 200 px threshold. -/
theorem scenario_close :
    computePixelDistanceSq personW vehicleW ≤ proxCfgW.pixel_threshold ^ 2 := by
  norm_num [computePixelDistanceSq, distSqPt, personW, vehicleW, proxCfgW]

/-- Witness for C1, instantiating the spec scenario at `t = 0, 1, 2`:
no warning at `t=0` or `t=1`, exactly one at `t=2`. -/
theorem proximity_duration_gating_witness :
    (proximityRun proxCfgW (fun _ => personW) (fun _ => vehicleW)
      (fun i => (i : ℚ)) [] 0).2 = []
    ∧ (proximityRun proxCfgW (fun _ => personW) (fun _ => vehicleW)
      (fun i => (i : ℚ)) [] 1).2 = []
    ∧ (proximityRun proxCfgW (fun _ => personW) (fun _ => vehicleW)
      (fun i => (i : ℚ)) [] 2).2 =
      [{ person_id := 1
         vehicle_id := 2
         proximity_score := 22500
         duration_s := 2
         timestamp := 2
         person_center := (0, 0)
         vehicle_center := (150, 0) }] := by
  have hb : ∀ i : ℕ, i < 2 → ((i : ℚ)) < ((0 : ℕ) : ℚ) + proxCfgW.min_duration_s := by
    intro i hi
    interval_cases i <;> norm_num [proxCfgW]
  have hf : ((0 : ℕ) : ℚ) + proxCfgW.min_duration_s ≤ ((2 : ℕ) : ℚ) := by
    norm_num [proxCfgW]
  have h := proximity_duration_gating proxCfgW (fun _ => personW) (fun _ => vehicleW)
    (fun i => (i : ℚ)) [] 1 2 2 (fun _ => rfl) (fun _ => rfl)
    (fun i _ => scenario_close) rfl (Or.inl rfl) hb hf
  refine ⟨h.1 0 (by omega), h.1 1 (by omega), ?_⟩
  rw [h.2]
  norm_num [ProximityWarning.mk.injEq, computePixelDistanceSq, distSqPt, personW, vehicleW]

/-- The pair state accrued by the scenario's `t=0` and `t=1` updates. -/
def stC6 : PTable :=
  [((1, 2),
    { person_id := 1, vehicle_id := 2, first_close_time := some 0,
      last_close_time := some 1, accumulated_duration := 0,
      is_alerted := false, last_alert_time := none })]

/-- Witness for C6, finishing the spec scenario: from the state accrued at
`t=0,1`, the update at `t=2` alerts and the update at `t=3` is suppressed
by the 5-second cooldown. -/
theorem proximity_cooldown_suppression_witness :
    (proximityRun proxCfgW (fun _ => personW) (fun _ => vehicleW)
      (fun i => (i : ℚ) + 2) stC6 1).2 = [] := by
  have halert : (proximityRun proxCfgW (fun _ => personW) (fun _ => vehicleW)
      (fun i => (i : ℚ) + 2) stC6 0).2 ≠ [] := by
    rw [show proximityRun proxCfgW (fun _ => personW) (fun _ => vehicleW)
          (fun i => (i : ℚ) + 2) stC6 0
        = ProximityAnalyzer.update proxCfgW [personW] [vehicleW] stC6 (((0 : ℕ) : ℚ) + 2)
        from rfl]
    rw [update_singleton_warnings]
    rw [show lookupA stC6 (personW.track_id, vehicleW.track_id)
        = some { person_id := 1, vehicle_id := 2, first_close_time := some 0,
                 last_close_time := some 1, accumulated_duration := 0,
                 is_alerted := false, last_alert_time := none } from rfl]
    rw [stepOne_fire proxCfgW (((0 : ℕ) : ℚ) + 2) 0 personW vehicleW _ rfl
      scenario_close (by norm_num [proxCfgW]) (Or.inl rfl)]
    simp
  have hin : ∀ i : ℕ, 1 ≤ i → i ≤ 1 →
      ((i : ℚ)) + 2 < (((0 : ℕ) : ℚ) + 2) + proxCfgW.cooldown_s := by
    intro i h1 h2
    interval_cases i
    norm_num [proxCfgW]
  have h := proximity_cooldown_suppression proxCfgW (fun _ => personW)
    (fun _ => vehicleW) (fun i => (i : ℚ) + 2) stC6 1 2 1
    (fun _ => rfl) (fun _ => rfl) (fun i _ => scenario_close) halert hin
  exact h 1 le_rfl le_rfl

/-- A table holding one previously-alerted pair state for the pair
`(1, 2)`. -/
def stC7 : PTable :=
  [((1, 2),
    { person_id := 1, vehicle_id := 2, first_close_time := some 0,
      last_close_time := some 1, accumulated_duration := 0,
      is_alerted := true, last_alert_time := some 1 })]

/-- Witness for C7: a departure frame at `t=2` resets exactly the
closeness fields, keeps the entry and its `last_alert_time`, and a
qualifying re-entry at `t=3` restarts the timer at `t=3`. -/
theorem proximity_reset_on_departure_witness :
    (ProximityAnalyzer.update proxCfgW [personFarW] [vehicleW] stC7 2).2 = []
    ∧ lookupA (ProximityAnalyzer.update proxCfgW [personFarW] [vehicleW] stC7 2).1 (1, 2)
        = some { person_id := 1, vehicle_id := 2, first_close_time := none,
                 last_close_time := none, accumulated_duration := 0,
                 is_alerted := false, last_alert_time := some 1 }
    ∧ (ProximityAnalyzer.update proxCfgW [personW] [vehicleW]
        (ProximityAnalyzer.update proxCfgW [personFarW] [vehicleW] stC7 2).1 3).2 = []
    ∧ lookupA (ProximityAnalyzer.update proxCfgW [personW] [vehicleW]
        (ProximityAnalyzer.update proxCfgW [personFarW] [vehicleW] stC7 2).1 3).1 (1, 2)
        = some { person_id := 1, vehicle_id := 2, first_close_time := some 3,
                 last_close_time := some 3, accumulated_duration := 0,
                 is_alerted := false, last_alert_time := some 1 } := by
  have hfar : ¬ computePixelDistanceSq personFarW vehicleW ≤ proxCfgW.pixel_threshold ^ 2 := by
    norm_num [computePixelDistanceSq, distSqPt, personFarW, vehicleW, proxCfgW]
  have h := proximity_reset_on_departure proxCfgW personFarW vehicleW stC7 2
    { person_id := 1, vehicle_id := 2, first_close_time := some 0,
      last_close_time := some 1, accumulated_duration := 0,
      is_alerted := true, last_alert_time := some 1 }
    rfl hfar
  have h3 := h.2.2 personW vehicleW 3 rfl rfl scenario_close (by norm_num [proxCfgW])
  exact ⟨h.1, h.2.1, h3.1, h3.2⟩

/-- A table holding a state for the pair `(1, 2)`. -/
def stC3 : PTable := [((1, 2), { person_id := 1, vehicle_id := 2 })]

/-- Counterexample for C3 as stated: with person `1` still present and
only the vehicle absent, the pair entry `(1, 2)` is nevertheless deleted
by the update (the claim said such an update does not delete it). -/
theorem proximity_pair_deleted_counterexample :
    personW.track_id = 1
    ∧ lookupA stC3 (1, 2) ≠ none
    ∧ lookupA (ProximityAnalyzer.update proxCfgW [personW] [] stC3 5).1 (1, 2) = none := by
  decide

/-- Witness for the amended C3 on a concrete table: the deletion
condition is exactly non-co-presence. -/
theorem proximity_pair_deleted_iff_witness :
    lookupA (ProximityAnalyzer.update proxCfgW [personW] [] stC3 5).1 (1, 2) = none
      ↔ ¬ ∃ p ∈ [personW], ∃ veh ∈ ([] : List TrackedObject),
          p.track_id = 1 ∧ veh.track_id = 2 :=
  proximity_pair_deleted_iff proxCfgW [personW] [] stC3 5 (1, 2)
    { person_id := 1, vehicle_id := 2 } rfl

/-! ## Fall detection (`src/fall_detection.py`) -/

/-- State tracker for a person's fall detection (`FallState.__init__`).
Note that `last_alert_time` is initialised to the float `0.0`, not to an
"unset" marker. -/
structure FallState where
  person_id : Int
  first_detected : ℚ
  last_detected : ℚ
  duration : ℚ := 0
  alerted : Bool := false
  last_alert_time : ℚ := 0
deriving Repr, DecidableEq

/-- `FallState.update`. -/
def FallState.update (s : FallState) (timestamp : ℚ) : FallState :=
  { s with last_detected := timestamp, duration := timestamp - s.first_detected }

/-- The configuration attributes of `FallDetector.__init__`; the mutable
`fall_states` dict is passed explicitly to `update`. -/
structure FallDetector where
  aspect_ratio_threshold : ℚ
  min_duration_s : ℚ
  cooldown_s : ℚ
deriving Repr, DecidableEq

/-- The state table `self.fall_states : Dict[int, FallState]`. -/
abbrev FTable : Type := List (Int × FallState)

/-- A fall alert `(person_id, location, duration)`. -/
abbrev FallAlert : Type := Int × (ℚ × ℚ) × ℚ

/-- The three accumulators of `FallDetector.update`: the state dict, the
`currently_fallen` collection and the `new_alerts` list. -/
structure FallAcc where
  states : FTable
  fallen : List Int
  alerts : List FallAlert

/-- The body of the `for person in tracked_people:` loop of
`FallDetector.update`.  A person whose bbox width is not positive is
skipped entirely (the source guards the whole block with `if width > 0:`).
-/
def fallStep (cfg : FallDetector) (timestamp : ℚ) (acc : FallAcc)
    (person : TrackedObject) : FallAcc :=
  let x1 := person.bbox_xyxy.1
  let y1 := person.bbox_xyxy.2.1
  let x2 := person.bbox_xyxy.2.2.1
  let y2 := person.bbox_xyxy.2.2.2
  let width := x2 - x1
  let height := y2 - y1
  if 0 < width then
    -- lower aspect ratio = more horizontal (wider than tall)
    if height / width < 1 / cfg.aspect_ratio_threshold then
      let person_id := person.track_id
      let fallen' := acc.fallen ++ [person_id]
      match lookupA acc.states person_id with
      | none =>
          { acc with
              states := insertA acc.states person_id
                { person_id := person_id
                  first_detected := timestamp
                  last_detected := timestamp }
              fallen := fallen' }
      | some state =>
          let s1 := state.update timestamp
          if s1.alerted = false ∧ cfg.min_duration_s ≤ s1.duration then
            if cfg.cooldown_s ≤ timestamp - s1.last_alert_time then
              { states := insertA acc.states person_id
                  { s1 with alerted := true, last_alert_time := timestamp }
                fallen := fallen'
                alerts := acc.alerts ++ [(person_id, person.center, s1.duration)] }
            else { acc with
                states := insertA acc.states person_id s1
                fallen := fallen' }
          else { acc with
              states := insertA acc.states person_id s1
              fallen := fallen' }
    else acc
  else acc

/-- `FallDetector.update`: the per-person loop followed by the cleanup of
states whose person is no longer in a fallen pose (alerted states are kept
within `cooldown_s` of `last_detected`).  Returns the new state dict, the
currently fallen ids and the new alerts. -/
def FallDetector.update (cfg : FallDetector) (tracked_people : List TrackedObject)
    (fall_states : FTable) (timestamp : ℚ) : FallAcc :=
  let acc := tracked_people.foldl (fallStep cfg timestamp)
    { states := fall_states, fallen := [], alerts := [] }
  { acc with
      states := acc.states.filter fun kv =>
        keyMemB acc.fallen kv.1
          || (kv.2.alerted && decide (timestamp - kv.2.last_detected ≤ cfg.cooldown_s)) }

/-- Iterated updates with a single tracked person, sampled at
`times 0, times 1, ...`. -/
def fallRun (cfg : FallDetector) (p : ℕ → TrackedObject) (times : ℕ → ℚ)
    (st0 : FTable) : ℕ → FallAcc
  | 0 => FallDetector.update cfg [p 0] st0 (times 0)
  | n + 1 => FallDetector.update cfg [p (n + 1)] (fallRun cfg p times st0 n).states (times (n + 1))

/-- The lying test applied by `FallDetector.update` to a person's bbox. -/
def isLying (cfg : FallDetector) (person : TrackedObject) : Prop :=
  0 < person.bbox_xyxy.2.2.1 - person.bbox_xyxy.1
  ∧ (person.bbox_xyxy.2.2.2 - person.bbox_xyxy.2.1)
      / (person.bbox_xyxy.2.2.1 - person.bbox_xyxy.1)
    < 1 / cfg.aspect_ratio_threshold

instance (cfg : FallDetector) (person : TrackedObject) :
    Decidable (isLying cfg person) := by
  unfold isLying
  infer_instance

theorem fall_update_alerts (cfg : FallDetector) (p : TrackedObject)
    (st : FTable) (t : ℚ) :
    (FallDetector.update cfg [p] st t).alerts
      = (fallStep cfg t ⟨st, [], []⟩ p).alerts := by
  simp [FallDetector.update]

theorem fall_update_fallen (cfg : FallDetector) (p : TrackedObject)
    (st : FTable) (t : ℚ) :
    (FallDetector.update cfg [p] st t).fallen
      = (fallStep cfg t ⟨st, [], []⟩ p).fallen := by
  simp [FallDetector.update]

theorem fall_update_states (cfg : FallDetector) (p : TrackedObject)
    (st : FTable) (t : ℚ) :
    (FallDetector.update cfg [p] st t).states
      = (fallStep cfg t ⟨st, [], []⟩ p).states.filter (fun kv =>
          keyMemB (fallStep cfg t ⟨st, [], []⟩ p).fallen kv.1
            || (kv.2.alerted && decide (t - kv.2.last_detected ≤ cfg.cooldown_s))) := by
  simp [FallDetector.update]

/-- A person who does not qualify as lying (degenerate bbox included)
leaves the whole accumulator untouched. -/
theorem fallStep_skip (cfg : FallDetector) (t : ℚ) (acc : FallAcc)
    (q : TrackedObject) (h : ¬ isLying cfg q) :
    fallStep cfg t acc q = acc := by
  simp only [fallStep]
  split_ifs with h1 h2
  · exact absurd ⟨h1, h2⟩ h
  · rfl
  · rfl

/-- First frame in a lying pose: a fresh state is created, no alert. -/
theorem fallStep_fresh (cfg : FallDetector) (t : ℚ) (acc : FallAcc)
    (q : TrackedObject) (hq : isLying cfg q)
    (hlk : lookupA acc.states q.track_id = none) :
    fallStep cfg t acc q =
      { acc with
          states := insertA acc.states q.track_id
            { person_id := q.track_id
              first_detected := t
              last_detected := t }
          fallen := acc.fallen ++ [q.track_id] } := by
  obtain ⟨hw, ha⟩ := hq
  have ha' : (q.bbox_xyxy.2.2.2 - q.bbox_xyxy.2.1)
      / (q.bbox_xyxy.2.2.1 - q.bbox_xyxy.1) < cfg.aspect_ratio_threshold⁻¹ := by
    rw [← one_div]
    exact ha
  simp [fallStep, hw, ha', hlk]

/-- Still lying, not yet alerted, before the duration threshold. -/
theorem fallStep_hold (cfg : FallDetector) (t : ℚ) (acc : FallAcc)
    (q : TrackedObject) (s : FallState) (hq : isLying cfg q)
    (hlk : lookupA acc.states q.track_id = some s)
    (hal : s.alerted = false)
    (hd : t - s.first_detected < cfg.min_duration_s) :
    fallStep cfg t acc q =
      { acc with
          states := insertA acc.states q.track_id (s.update t)
          fallen := acc.fallen ++ [q.track_id] } := by
  obtain ⟨hw, ha⟩ := hq
  have ha' : (q.bbox_xyxy.2.2.2 - q.bbox_xyxy.2.1)
      / (q.bbox_xyxy.2.2.1 - q.bbox_xyxy.1) < cfg.aspect_ratio_threshold⁻¹ := by
    rw [← one_div]
    exact ha
  simp [fallStep, hw, ha', hlk, FallState.update, not_le.mpr hd]

/-- Still lying, not yet alerted, duration and cooldown satisfied: the
alert fires. -/
theorem fallStep_fire (cfg : FallDetector) (t : ℚ) (acc : FallAcc)
    (q : TrackedObject) (s : FallState) (hq : isLying cfg q)
    (hlk : lookupA acc.states q.track_id = some s)
    (hal : s.alerted = false)
    (hd : cfg.min_duration_s ≤ t - s.first_detected)
    (hc : cfg.cooldown_s ≤ t - s.last_alert_time) :
    fallStep cfg t acc q =
      { states := insertA acc.states q.track_id
          { s.update t with alerted := true, last_alert_time := t }
        fallen := acc.fallen ++ [q.track_id]
        alerts := acc.alerts ++ [(q.track_id, q.center, t - s.first_detected)] } := by
  obtain ⟨hw, ha⟩ := hq
  have ha' : (q.bbox_xyxy.2.2.2 - q.bbox_xyxy.2.1)
      / (q.bbox_xyxy.2.2.1 - q.bbox_xyxy.1) < cfg.aspect_ratio_threshold⁻¹ := by
    rw [← one_div]
    exact ha
  simp [fallStep, hw, ha', hlk, FallState.update, hal, hd, hc]

/-- Still lying, duration reached, but the cooldown comparison against
`last_alert_time` (initially `0.0`) fails: no alert. -/
theorem fallStep_blocked (cfg : FallDetector) (t : ℚ) (acc : FallAcc)
    (q : TrackedObject) (s : FallState) (hq : isLying cfg q)
    (hlk : lookupA acc.states q.track_id = some s)
    (hal : s.alerted = false)
    (hd : cfg.min_duration_s ≤ t - s.first_detected)
    (hc : ¬ cfg.cooldown_s ≤ t - s.last_alert_time) :
    fallStep cfg t acc q =
      { acc with
          states := insertA acc.states q.track_id (s.update t)
          fallen := acc.fallen ++ [q.track_id] } := by
  obtain ⟨hw, ha⟩ := hq
  have ha' : (q.bbox_xyxy.2.2.2 - q.bbox_xyxy.2.1)
      / (q.bbox_xyxy.2.2.1 - q.bbox_xyxy.1) < cfg.aspect_ratio_threshold⁻¹ := by
    rw [← one_div]
    exact ha
  simp [fallStep, hw, ha', hlk, FallState.update, hal, hd, hc]

/-- Still lying but already alerted: the state is refreshed in place, no
alert is emitted and the `alerted` flag stays set. -/
theorem fallStep_self_alerted (cfg : FallDetector) (t : ℚ) (acc : FallAcc)
    (q : TrackedObject) (s : FallState) (hq : isLying cfg q)
    (hlk : lookupA acc.states q.track_id = some s)
    (hal : s.alerted = true) :
    fallStep cfg t acc q =
      { acc with
          states := insertA acc.states q.track_id (s.update t)
          fallen := acc.fallen ++ [q.track_id] } := by
  obtain ⟨hw, ha⟩ := hq
  have ha' : (q.bbox_xyxy.2.2.2 - q.bbox_xyxy.2.1)
      / (q.bbox_xyxy.2.2.1 - q.bbox_xyxy.1) < cfg.aspect_ratio_threshold⁻¹ := by
    rw [← one_div]
    exact ha
  simp [fallStep, hw, ha', hlk, FallState.update, hal]

/-- Structural case split of the loop body: it either leaves the
accumulator untouched, or inserts a state at the person's own key,
appends the person to `fallen` and appends at most one alert for the
person's own id. -/
theorem fallStep_cases (cfg : FallDetector) (t : ℚ) (acc : FallAcc)
    (q : TrackedObject) :
    fallStep cfg t acc q = acc
    ∨ ∃ s' : FallState,
        (fallStep cfg t acc q).states = insertA acc.states q.track_id s'
        ∧ (fallStep cfg t acc q).fallen = acc.fallen ++ [q.track_id]
        ∧ ((fallStep cfg t acc q).alerts = acc.alerts
            ∨ (fallStep cfg t acc q).alerts
              = acc.alerts ++ [(q.track_id, q.center, s'.duration)]) := by
  by_cases hq : isLying cfg q
  · rcases hlk : lookupA acc.states q.track_id with _ | s
    · rw [fallStep_fresh cfg t acc q hq hlk]
      exact Or.inr ⟨_, rfl, rfl, Or.inl rfl⟩
    · by_cases hal : s.alerted = true
      · rw [fallStep_self_alerted cfg t acc q s hq hlk hal]
        exact Or.inr ⟨_, rfl, rfl, Or.inl rfl⟩
      · have hal' : s.alerted = false := by
          cases h : s.alerted
          · rfl
          · exact absurd h hal
        by_cases hd : cfg.min_duration_s ≤ t - s.first_detected
        · by_cases hc : cfg.cooldown_s ≤ t - s.last_alert_time
          · rw [fallStep_fire cfg t acc q s hq hlk hal' hd hc]
            refine Or.inr ⟨{ s.update t with alerted := true, last_alert_time := t },
              rfl, rfl, Or.inr ?_⟩
            simp [FallState.update]
          · obtain ⟨hw, ha⟩ := hq
            have ha' : (q.bbox_xyxy.2.2.2 - q.bbox_xyxy.2.1)
                / (q.bbox_xyxy.2.2.1 - q.bbox_xyxy.1) < cfg.aspect_ratio_threshold⁻¹ := by
              rw [← one_div]
              exact ha
            have : fallStep cfg t acc q =
                { acc with
                    states := insertA acc.states q.track_id (s.update t)
                    fallen := acc.fallen ++ [q.track_id] } := by
              simp [fallStep, hw, ha', hlk, FallState.update, hal', hd, hc]
            rw [this]
            exact Or.inr ⟨_, rfl, rfl, Or.inl rfl⟩
        · rw [fallStep_hold cfg t acc q s hq hlk hal' (not_le.mp hd)]
          exact Or.inr ⟨_, rfl, rfl, Or.inl rfl⟩
  · exact Or.inl (fallStep_skip cfg t acc q hq)

/-- What the loop body can do to a key other than the person's own. -/
theorem fallStep_untouched (cfg : FallDetector) (t : ℚ) (acc : FallAcc)
    (q : TrackedObject) (k : Int) (hk : q.track_id ≠ k) :
    lookupA (fallStep cfg t acc q).states k = lookupA acc.states k
    ∧ (k ∈ (fallStep cfg t acc q).fallen ↔ k ∈ acc.fallen)
    ∧ (∀ a ∈ (fallStep cfg t acc q).alerts, a ∈ acc.alerts ∨ a.1 = q.track_id)
    ∧ ((acc.states.map Prod.fst).Nodup →
        ((fallStep cfg t acc q).states.map Prod.fst).Nodup) := by
  rcases fallStep_cases cfg t acc q with h | ⟨s', h1, h2, h3⟩
  · rw [h]
    exact ⟨rfl, Iff.rfl, fun a ha => Or.inl ha, fun h => h⟩
  · refine ⟨?_, ?_, ?_, ?_⟩
    · rw [h1]
      exact lookupA_insertA_ne _ _ _ _ (fun he => hk he.symm)
    · rw [h2]
      simp only [List.mem_append, List.mem_singleton]
      constructor
      · rintro (h | h)
        · exact h
        · exact absurd h.symm hk
      · exact fun h => Or.inl h
    · intro a ha
      rcases h3 with h3 | h3
      · exact Or.inl (h3 ▸ ha)
      · rw [h3] at ha
        rcases List.mem_append.mp ha with h | h
        · exact Or.inl h
        · simp only [List.mem_singleton] at h
          exact Or.inr (by rw [h])
    · intro hn
      rw [h1]
      exact keys_insertA_nodup _ _ _ hn

/-- Claim C2 (amended): first fall alert.  For a person continuously
lying from `times 0` with no pre-existing state, no alert is emitted
before `times 0 + min_duration_s`, and the first sample at or after that
instant emits exactly one alert — provided that sample's absolute
timestamp is at least `cooldown_s`, because `FallState.__init__` sets
`last_alert_time = 0.0` and the cooldown check compares against it. -/
theorem fall_first_alert_gating
    (cfg : FallDetector) (p : ℕ → TrackedObject) (times : ℕ → ℚ)
    (st0 : FTable) (pid : Int) (n : ℕ)
    (hp : ∀ i, (p i).track_id = pid)
    (hlying : ∀ i, i ≤ n → isLying cfg (p i))
    (hfresh : lookupA st0 pid = none)
    (hn : 1 ≤ n)
    (hbefore : ∀ i, i < n → times i < times 0 + cfg.min_duration_s)
    (hfire : times 0 + cfg.min_duration_s ≤ times n)
    (hcool : cfg.cooldown_s ≤ times n) :
    (∀ i, i < n → (fallRun cfg p times st0 i).alerts = [])
    ∧ (fallRun cfg p times st0 n).alerts = [(pid, (p n).center, times n - times 0)] := by
  have hInv : ∀ i, i < n →
      lookupA (fallRun cfg p times st0 i).states pid
        = some { person_id := pid
                 first_detected := times 0
                 last_detected := times i
                 duration := times i - times 0
                 alerted := false
                 last_alert_time := 0 }
      ∧ (fallRun cfg p times st0 i).alerts = [] := by
    intro i
    induction i with
    | zero =>
        intro h0
        have hq := hlying 0 (Nat.zero_le n)
        have hlk : lookupA st0 (p 0).track_id = none := by rw [hp]; exact hfresh
        have hstep := fallStep_fresh cfg (times 0) ⟨st0, [], []⟩ (p 0) hq hlk
        have e1 : lookupA (fallRun cfg p times st0 0).states pid
            = some { person_id := pid
                     first_detected := times 0
                     last_detected := times 0 } := by
          rw [show fallRun cfg p times st0 0
                = FallDetector.update cfg [p 0] st0 (times 0) from rfl]
          rw [fall_update_states, hstep]
          simp only [hp, List.nil_append]
          exact lookupA_filter_of_true (lookupA_insertA_self _ _ _) (by simp [keyMemB])
        have e2 : (fallRun cfg p times st0 0).alerts = [] := by
          rw [show fallRun cfg p times st0 0
                = FallDetector.update cfg [p 0] st0 (times 0) from rfl]
          rw [fall_update_alerts, hstep]
        refine ⟨?_, e2⟩
        rw [e1]
        simp [sub_self]
    | succ i ih =>
        intro hsucc
        have hi : i < n := Nat.lt_of_succ_lt hsucc
        obtain ⟨ih1, _⟩ := ih hi
        have hq := hlying (i + 1) (Nat.le_of_lt hsucc)
        have hlk : lookupA (fallRun cfg p times st0 i).states (p (i + 1)).track_id
            = some { person_id := pid
                     first_detected := times 0
                     last_detected := times i
                     duration := times i - times 0
                     alerted := false
                     last_alert_time := 0 } := by
          rw [hp]
          exact ih1
        have hd : times (i + 1)
            - (FallState.first_detected
                { person_id := pid
                  first_detected := times 0
                  last_detected := times i
                  duration := times i - times 0
                  alerted := false
                  last_alert_time := 0 }) < cfg.min_duration_s := by
          have := hbefore (i + 1) hsucc
          simp only
          linarith
        have hstep := fallStep_hold cfg (times (i + 1))
          ⟨(fallRun cfg p times st0 i).states, [], []⟩ (p (i + 1)) _ hq hlk rfl hd
        have e1 : lookupA (fallRun cfg p times st0 (i + 1)).states pid
            = some { person_id := pid
                     first_detected := times 0
                     last_detected := times (i + 1)
                     duration := times (i + 1) - times 0
                     alerted := false
                     last_alert_time := 0 } := by
          rw [show fallRun cfg p times st0 (i + 1)
                = FallDetector.update cfg [p (i + 1)]
                    (fallRun cfg p times st0 i).states (times (i + 1)) from rfl]
          rw [fall_update_states, hstep]
          simp only [hp, List.nil_append]
          exact lookupA_filter_of_true (lookupA_insertA_self _ _ _) (by simp [keyMemB])
        have e2 : (fallRun cfg p times st0 (i + 1)).alerts = [] := by
          rw [show fallRun cfg p times st0 (i + 1)
                = FallDetector.update cfg [p (i + 1)]
                    (fallRun cfg p times st0 i).states (times (i + 1)) from rfl]
          rw [fall_update_alerts, hstep]
        exact ⟨e1, e2⟩
  refine ⟨fun i hi => (hInv i hi).2, ?_⟩
  cases n with
  | zero => exact absurd hn (by omega)
  | succ m =>
      obtain ⟨ih1, _⟩ := hInv m (Nat.lt_succ_self m)
      have hq := hlying (m + 1) le_rfl
      have hlk : lookupA (fallRun cfg p times st0 m).states (p (m + 1)).track_id
          = some { person_id := pid
                   first_detected := times 0
                   last_detected := times m
                   duration := times m - times 0
                   alerted := false
                   last_alert_time := 0 } := by
        rw [hp]
        exact ih1
      have hstep := fallStep_fire cfg (times (m + 1))
        ⟨(fallRun cfg p times st0 m).states, [], []⟩ (p (m + 1)) _ hq hlk rfl
        (by simp only; linarith) (by simp only; linarith)
      rw [show fallRun cfg p times st0 (m + 1)
            = FallDetector.update cfg [p (m + 1)]
                (fallRun cfg p times st0 m).states (times (m + 1)) from rfl]
      rw [fall_update_alerts, hstep]
      simp [hp]

/-! ### Concrete fall scenario data (spec §8): aspect_ratio_threshold=1.5,
min_duration=1.5, cooldown=10.0 (the source defaults), a person bbox with
height/width = 0.4. -/

def fallCfgW : FallDetector :=
  { aspect_ratio_threshold := 1.5, min_duration_s := 1.5, cooldown_s := 10 }

def lyingW : TrackedObject :=
  { track_id := 1, bbox_xyxy := (0, 0, 10, 4), confidence := 1,
    class_id := 0, class_name := "person", center := (5, 2) }

/-- A person bbox with zero width. -/
def zeroWidthW : TrackedObject :=
  { track_id := 3, bbox_xyxy := (5, 0, 5, 10), confidence := 1,
    class_id := 0, class_name := "person", center := (5, 5) }

theorem lyingW_isLying : isLying fallCfgW lyingW := by
  constructor
  · norm_num [lyingW]
  · norm_num [lyingW, fallCfgW]

/-- Counterexample for C2 as stated: the spec scenario run at absolute
timestamps `0, 1, 2` (three samples spanning 2.0 s, `min_duration = 1.5`)
emits no alert at all — in particular none at the crossing sample `t = 2`,
although its elapsed duration `2.0` exceeds `min_duration` — because
`last_alert_time` is initialised to `0.0` and `2 - 0.0 < cooldown = 10`,
so the cooldown check blocks the first-ever alert at small absolute
timestamps. -/
theorem fall_first_alert_counterexample :
    (fallRun fallCfgW (fun _ => lyingW) (fun i => (i : ℚ)) [] 0).alerts = []
    ∧ (fallRun fallCfgW (fun _ => lyingW) (fun i => (i : ℚ)) [] 1).alerts = []
    ∧ (fallRun fallCfgW (fun _ => lyingW) (fun i => (i : ℚ)) [] 2).alerts = []
    ∧ fallCfgW.min_duration_s ≤ ((2 : ℕ) : ℚ) - ((0 : ℕ) : ℚ) := by
  have s0 := fallStep_fresh fallCfgW ((0 : ℕ) : ℚ) ⟨[], [], []⟩ lyingW
    lyingW_isLying rfl
  have e0s : (fallRun fallCfgW (fun _ => lyingW) (fun i => (i : ℚ)) [] 0).states
      = [(1, { person_id := 1
               first_detected := ((0 : ℕ) : ℚ)
               last_detected := ((0 : ℕ) : ℚ) })] := by
    rw [show fallRun fallCfgW (fun _ => lyingW) (fun i => (i : ℚ)) [] 0
          = FallDetector.update fallCfgW [lyingW] [] ((0 : ℕ) : ℚ) from rfl]
    rw [fall_update_states, s0]
    simp [insertA, keyMemB, lyingW]
  have e0a : (fallRun fallCfgW (fun _ => lyingW) (fun i => (i : ℚ)) [] 0).alerts = [] := by
    rw [show fallRun fallCfgW (fun _ => lyingW) (fun i => (i : ℚ)) [] 0
          = FallDetector.update fallCfgW [lyingW] [] ((0 : ℕ) : ℚ) from rfl]
    rw [fall_update_alerts, s0]
  have s1 := fallStep_hold fallCfgW ((1 : ℕ) : ℚ)
    ⟨(fallRun fallCfgW (fun _ => lyingW) (fun i => (i : ℚ)) [] 0).states, [], []⟩ lyingW
    { person_id := 1
      first_detected := ((0 : ℕ) : ℚ)
      last_detected := ((0 : ℕ) : ℚ) }
    lyingW_isLying (by rw [e0s]; rfl) rfl (by norm_num [fallCfgW])
  have e1s : (fallRun fallCfgW (fun _ => lyingW) (fun i => (i : ℚ)) [] 1).states
      = [(1, { person_id := 1
               first_detected := ((0 : ℕ) : ℚ)
               last_detected := ((1 : ℕ) : ℚ)
               duration := ((1 : ℕ) : ℚ) - ((0 : ℕ) : ℚ) })] := by
    rw [show fallRun fallCfgW (fun _ => lyingW) (fun i => (i : ℚ)) [] 1
          = FallDetector.update fallCfgW [lyingW]
              (fallRun fallCfgW (fun _ => lyingW) (fun i => (i : ℚ)) [] 0).states
              ((1 : ℕ) : ℚ) from rfl]
    rw [fall_update_states, s1, e0s]
    simp [insertA, keyMemB, lyingW, FallState.update]
  have e1a : (fallRun fallCfgW (fun _ => lyingW) (fun i => (i : ℚ)) [] 1).alerts = [] := by
    rw [show fallRun fallCfgW (fun _ => lyingW) (fun i => (i : ℚ)) [] 1
          = FallDetector.update fallCfgW [lyingW]
              (fallRun fallCfgW (fun _ => lyingW) (fun i => (i : ℚ)) [] 0).states
              ((1 : ℕ) : ℚ) from rfl]
    rw [fall_update_alerts, s1]
  have s2 := fallStep_blocked fallCfgW ((2 : ℕ) : ℚ)
    ⟨(fallRun fallCfgW (fun _ => lyingW) (fun i => (i : ℚ)) [] 1).states, [], []⟩ lyingW
    { person_id := 1
      first_detected := ((0 : ℕ) : ℚ)
      last_detected := ((1 : ℕ) : ℚ)
      duration := ((1 : ℕ) : ℚ) - ((0 : ℕ) : ℚ) }
    lyingW_isLying (by rw [e1s]; rfl) rfl (by norm_num [fallCfgW]) (by norm_num [fallCfgW])
  have e2a : (fallRun fallCfgW (fun _ => lyingW) (fun i => (i : ℚ)) [] 2).alerts = [] := by
    rw [show fallRun fallCfgW (fun _ => lyingW) (fun i => (i : ℚ)) [] 2
          = FallDetector.update fallCfgW [lyingW]
              (fallRun fallCfgW (fun _ => lyingW) (fun i => (i : ℚ)) [] 1).states
              ((2 : ℕ) : ℚ) from rfl]
    rw [fall_update_alerts, s2]
  exact ⟨e0a, e1a, e2a, by norm_num [fallCfgW]⟩

/-- Witness for the amended C2: the same scenario at absolute timestamps
`100, 101, 102` (all at least `cooldown_s = 10`) emits no alert at the
first two samples and exactly one alert at the crossing sample `t=102`. -/
theorem fall_first_alert_gating_witness :
    (fallRun fallCfgW (fun _ => lyingW) (fun i => (i : ℚ) + 100) [] 0).alerts = []
    ∧ (fallRun fallCfgW (fun _ => lyingW) (fun i => (i : ℚ) + 100) [] 1).alerts = []
    ∧ (fallRun fallCfgW (fun _ => lyingW) (fun i => (i : ℚ) + 100) [] 2).alerts
        = [(1, (5, 2), 2)] := by
  have hb : ∀ i : ℕ, i < 2 →
      ((i : ℚ)) + 100 < (((0 : ℕ) : ℚ) + 100) + fallCfgW.min_duration_s := by
    intro i hi
    interval_cases i <;> norm_num [fallCfgW]
  have hf : (((0 : ℕ) : ℚ) + 100) + fallCfgW.min_duration_s ≤ ((2 : ℕ) : ℚ) + 100 := by
    norm_num [fallCfgW]
  have hc : fallCfgW.cooldown_s ≤ ((2 : ℕ) : ℚ) + 100 := by
    norm_num [fallCfgW]
  have h := fall_first_alert_gating fallCfgW (fun _ => lyingW)
    (fun i => (i : ℚ) + 100) [] 1 2 (fun _ => rfl) (fun _ _ => lyingW_isLying)
    rfl (by omega) hb hf hc
  refine ⟨h.1 0 (by omega), h.1 1 (by omega), ?_⟩
  rw [h.2]
  norm_num [lyingW]

/-- Claim C8 (amended): a person whose bbox width is zero or negative is
skipped by `FallDetector.update`: no exception is modelled, the person is
not classified as lying, is excluded from `currently_fallen`, and the
update behaves exactly as if the person were absent from the frame. -/
theorem fall_degenerate_skip (cfg : FallDetector)
    (people1 people2 : List TrackedObject) (q : TrackedObject)
    (st : FTable) (t : ℚ)
    (hw : q.bbox_xyxy.2.2.1 - q.bbox_xyxy.1 ≤ 0) :
    FallDetector.update cfg (people1 ++ q :: people2) st t
      = FallDetector.update cfg (people1 ++ people2) st t := by
  have hnl : ¬ isLying cfg q := fun h => absurd h.1 (not_lt.mpr hw)
  unfold FallDetector.update
  rw [List.foldl_append, List.foldl_cons, fallStep_skip cfg t _ q hnl,
    ← List.foldl_append]

/-- Counterexample for C8 as stated: a zero-width person is not included
in the returned currently-fallen set (the claim said the zero aspect-ratio
fallback classifies them as lying). -/
theorem fall_degenerate_counterexample :
    zeroWidthW.bbox_xyxy.2.2.1 - zeroWidthW.bbox_xyxy.1 = 0
    ∧ (FallDetector.update fallCfgW [zeroWidthW] [] 5).fallen = [] := by
  constructor
  · norm_num [zeroWidthW]
  · rw [fall_update_fallen, fallStep_skip fallCfgW 5 _ zeroWidthW]
    intro h
    exact absurd h.1 (by norm_num [zeroWidthW])

/-- Witness for the amended C8 at a concrete input. -/
theorem fall_degenerate_skip_witness :
    FallDetector.update fallCfgW ([lyingW] ++ zeroWidthW :: []) [] 5
      = FallDetector.update fallCfgW ([lyingW] ++ []) [] 5 :=
  fall_degenerate_skip fallCfgW [lyingW] [] zeroWidthW [] 5 (by norm_num [zeroWidthW])

theorem fall_update_alerts_eq (cfg : FallDetector) (people : List TrackedObject)
    (st : FTable) (t : ℚ) :
    (FallDetector.update cfg people st t).alerts
      = (people.foldl (fallStep cfg t) ⟨st, [], []⟩).alerts := rfl

theorem fall_update_fallen_eq (cfg : FallDetector) (people : List TrackedObject)
    (st : FTable) (t : ℚ) :
    (FallDetector.update cfg people st t).fallen
      = (people.foldl (fallStep cfg t) ⟨st, [], []⟩).fallen := rfl

theorem fall_update_states_eq (cfg : FallDetector) (people : List TrackedObject)
    (st : FTable) (t : ℚ) :
    (FallDetector.update cfg people st t).states
      = (people.foldl (fallStep cfg t) ⟨st, [], []⟩).states.filter (fun kv =>
          keyMemB (people.foldl (fallStep cfg t) ⟨st, [], []⟩).fallen kv.1
            || (kv.2.alerted && decide (t - kv.2.last_detected ≤ cfg.cooldown_s))) := rfl

/-- Claim C10: an alerted `FallState` is never re-alerted and never loses
its origin.  For any update: no alert is ever emitted for a person whose
stored state has `alerted = true`; if the person qualifies as lying this
frame the same state object is refreshed (`first_detected`, `alerted` and
`last_alert_time` untouched, duration re-derived from the original
`first_detected`); if not, the state survives unchanged exactly while
`timestamp - last_detected ≤ cooldown_s` and is removed otherwise. -/
theorem fall_state_retention
    (cfg : FallDetector) (people : List TrackedObject) (st : FTable) (t : ℚ)
    (pid : Int) (s : FallState)
    (hn : (st.map Prod.fst).Nodup)
    (hs : lookupA st pid = some s) (hal : s.alerted = true) :
    (∀ a ∈ (FallDetector.update cfg people st t).alerts, a.1 ≠ pid)
    ∧ (pid ∈ (FallDetector.update cfg people st t).fallen →
        lookupA (FallDetector.update cfg people st t).states pid = some (s.update t))
    ∧ (pid ∉ (FallDetector.update cfg people st t).fallen →
        (t - s.last_detected ≤ cfg.cooldown_s →
          lookupA (FallDetector.update cfg people st t).states pid = some s)
        ∧ (¬ t - s.last_detected ≤ cfg.cooldown_s →
          lookupA (FallDetector.update cfg people st t).states pid = none)) := by
  have hupdal : (s.update t).alerted = true := by
    simp [FallState.update, hal]
  have hidem : (s.update t).update t = s.update t := by
    simp [FallState.update]
  have hfold : ∀ (ppl : List TrackedObject) (acc : FallAcc),
      (∀ a ∈ acc.alerts, a.1 ≠ pid) →
      ((pid ∈ acc.fallen ∧ lookupA acc.states pid = some (s.update t))
        ∨ (pid ∉ acc.fallen ∧ lookupA acc.states pid = some s)) →
      (acc.states.map Prod.fst).Nodup →
      (∀ a ∈ (ppl.foldl (fallStep cfg t) acc).alerts, a.1 ≠ pid)
      ∧ ((pid ∈ (ppl.foldl (fallStep cfg t) acc).fallen
            ∧ lookupA (ppl.foldl (fallStep cfg t) acc).states pid = some (s.update t))
        ∨ (pid ∉ (ppl.foldl (fallStep cfg t) acc).fallen
            ∧ lookupA (ppl.foldl (fallStep cfg t) acc).states pid = some s))
      ∧ ((ppl.foldl (fallStep cfg t) acc).states.map Prod.fst).Nodup := by
    intro ppl
    induction ppl with
    | nil => exact fun acc h1 h2 h3 => ⟨h1, h2, h3⟩
    | cons q rest ih =>
        intro acc h1 h2 h3
        rw [List.foldl_cons]
        by_cases hqpid : q.track_id = pid
        · by_cases hq : isLying cfg q
          · rcases h2 with ⟨hmem, hlk⟩ | ⟨hmem, hlk⟩
            · have hupd := fallStep_self_alerted cfg t acc q (s.update t) hq
                (by rw [hqpid]; exact hlk) hupdal
              apply ih
              · rw [hupd]
                exact h1
              · rw [hupd]
                refine Or.inl ⟨by simp [hqpid], ?_⟩
                simp only
                rw [hqpid, hidem]
                exact lookupA_insertA_self _ _ _
              · rw [hupd]
                exact keys_insertA_nodup _ _ _ h3
            · have hupd := fallStep_self_alerted cfg t acc q s hq
                (by rw [hqpid]; exact hlk) hal
              apply ih
              · rw [hupd]
                exact h1
              · rw [hupd]
                refine Or.inl ⟨by simp [hqpid], ?_⟩
                simp only
                rw [hqpid]
                exact lookupA_insertA_self acc.states pid (s.update t)
              · rw [hupd]
                exact keys_insertA_nodup _ _ _ h3
          · rw [fallStep_skip cfg t acc q hq]
            exact ih acc h1 h2 h3
        · obtain ⟨hlku, hfal, halrt, hnod⟩ := fallStep_untouched cfg t acc q pid hqpid
          apply ih
          · intro a ha
            rcases halrt a ha with h | h
            · exact h1 a h
            · rw [h]
              exact hqpid
          · rcases h2 with ⟨hmem, hlk⟩ | ⟨hmem, hlk⟩
            · exact Or.inl ⟨hfal.mpr hmem, hlku.trans hlk⟩
            · exact Or.inr ⟨fun hmem' => hmem (hfal.mp hmem'), hlku.trans hlk⟩
          · exact hnod h3
  obtain ⟨H1, H2, H3⟩ := hfold people ⟨st, [], []⟩ (by simp)
    (Or.inr ⟨by simp, hs⟩) hn
  refine ⟨?_, ?_, ?_⟩
  · rw [fall_update_alerts_eq]
    exact H1
  · intro hmem
    rw [fall_update_fallen_eq] at hmem
    rcases H2 with ⟨_, hlk⟩ | ⟨hnot, _⟩
    · rw [fall_update_states_eq]
      refine lookupA_filter_of_true hlk ?_
      simp [keyMemB, hmem]
    · exact absurd hmem hnot
  · intro hmem
    rw [fall_update_fallen_eq] at hmem
    rcases H2 with ⟨hin, _⟩ | ⟨_, hlk⟩
    · exact absurd hin hmem
    · have hkm : keyMemB (people.foldl (fallStep cfg t) ⟨st, [], []⟩).fallen pid = false := by
        simp [keyMemB, hmem]
      constructor
      · intro hcd
        rw [fall_update_states_eq]
        refine lookupA_filter_of_true hlk ?_
        simp [hkm, hal, hcd]
      · intro hcd
        rw [fall_update_states_eq]
        refine lookupA_filter_of_false H3 hlk ?_
        simp [hkm, hal, hcd]

/-- Witness for C10: a person alerted at `t=3`, lying again at `t=4`:
the state is refreshed from the original `first_detected = 0`, stays
alerted and no new alert fires. -/
theorem fall_state_retention_witness :
    (∀ a ∈ (FallDetector.update fallCfgW [lyingW]
        [(1, { person_id := 1, first_detected := 0, last_detected := 3,
               duration := 3, alerted := true, last_alert_time := 3 })] 4).alerts,
      a.1 ≠ 1)
    ∧ lookupA (FallDetector.update fallCfgW [lyingW]
        [(1, { person_id := 1, first_detected := 0, last_detected := 3,
               duration := 3, alerted := true, last_alert_time := 3 })] 4).states 1
      = some { person_id := 1, first_detected := 0, last_detected := 4,
               duration := 4, alerted := true, last_alert_time := 3 } := by
  have h := fall_state_retention fallCfgW [lyingW]
    [(1, { person_id := 1, first_detected := 0, last_detected := 3,
           duration := 3, alerted := true, last_alert_time := 3 })] 4 1
    { person_id := 1, first_detected := 0, last_detected := 3,
      duration := 3, alerted := true, last_alert_time := 3 }
    (by simp) rfl rfl
  have hmem : (1 : Int) ∈ (FallDetector.update fallCfgW [lyingW]
      [(1, { person_id := 1, first_detected := 0, last_detected := 3,
             duration := 3, alerted := true, last_alert_time := 3 })] 4).fallen := by
    rw [fall_update_fallen, fallStep_self_alerted fallCfgW 4
      ⟨[(1, { person_id := 1, first_detected := 0, last_detected := 3,
              duration := 3, alerted := true, last_alert_time := 3 })], [], []⟩ lyingW
      { person_id := 1, first_detected := 0, last_detected := 3,
        duration := 3, alerted := true, last_alert_time := 3 }
      lyingW_isLying rfl rfl]
    simp [lyingW]
  refine ⟨h.1, ?_⟩
  rw [h.2.1 hmem]
  norm_num [FallState.update]

/-! ## Headcount monitoring (`src/headcount.py`) -/

/-- The full mutable state of `HeadcountMonitor`. -/
structure HeadcountMonitor where
  expected_active_count : Int
  check_interval_s : ℚ
  sample_window_s : ℚ
  count_history : List (ℚ × Int)
  last_check_time : ℚ
  last_alert_time : ℚ
  alert_cooldown_s : ℚ
deriving Repr, DecidableEq

/-- `HeadcountMonitor.record_count`: append the sample, then drop every
entry older than `timestamp - sample_window_s`. -/
def HeadcountMonitor.record_count (m : HeadcountMonitor) (count : Int)
    (timestamp : ℚ) : HeadcountMonitor :=
  { m with count_history :=
      (m.count_history ++ [(timestamp, count)]).filter fun tc =>
        decide (timestamp - m.sample_window_s ≤ tc.1) }

/-- `HeadcountMonitor.should_check`. -/
def HeadcountMonitor.should_check (m : HeadcountMonitor) (current_time : ℚ) : Bool :=
  decide (m.check_interval_s ≤ current_time - m.last_check_time)

/-- Keys of a `collections.Counter` built by scanning the list, given the
keys already seen: each value is emitted at its first occurrence. -/
def counterKeys : List Int → List Int → List Int
  | _, [] => []
  | seen, x :: xs =>
      if x ∈ seen then counterKeys seen xs else x :: counterKeys (x :: seen) xs

/-- The distinct values of a list in order of first occurrence: the
iteration order of the keys of `collections.Counter` built from the
list. -/
def firstOcc (l : List Int) : List Int := counterKeys [] l

/-- Scan the candidate values keeping the first one with strictly maximal
multiplicity in `l` — the tie-breaking of `Counter.most_common(1)` (a
stable selection of the maximum by count). -/
def pickMode (l : List Int) : Int → List Int → Int
  | best, [] => best
  | best, c :: cs =>
      if l.count best < l.count c then pickMode l c cs else pickMode l best cs

/-- `Counter(counts).most_common(1)[0][0]`: the most frequent value of
`l`, ties broken in favour of the value first encountered. -/
def counterMode (l : List Int) : Int :=
  match firstOcc l with
  | [] => 0
  | c :: cs => pickMode l c cs

/-- The tuple returned by `check_headcount`:
`(has_mismatch, detected_count, mode_count, expected_count)`. -/
structure CheckResult where
  has_mismatch : Bool
  detected_count : Int
  mode_count : Int
  expected_count : Int
deriving Repr, DecidableEq

/-- `HeadcountMonitor.check_headcount`.  Returns the new monitor state
(the source mutates `self`) next to the result tuple. -/
def HeadcountMonitor.check_headcount (m : HeadcountMonitor) (current_time : ℚ) :
    HeadcountMonitor × CheckResult :=
  let m1 := { m with last_check_time := current_time }
  if m.count_history = [] then
    (m1, { has_mismatch := false, detected_count := 0, mode_count := 0,
           expected_count := m.expected_active_count })
  else
    let counts := m.count_history.map Prod.snd
    if counts = [] then
      (m1, { has_mismatch := false, detected_count := 0, mode_count := 0,
             expected_count := m.expected_active_count })
    else
      let mode_count := counterMode counts
      let current_count := counts.getLast?.getD 0
      if mode_count ≠ m.expected_active_count then
        if current_time - m.last_alert_time < m.alert_cooldown_s then
          (m1, { has_mismatch := false, detected_count := current_count,
                 mode_count := mode_count,
                 expected_count := m.expected_active_count })
        else
          ({ m1 with last_alert_time := current_time },
           { has_mismatch := true, detected_count := current_count,
             mode_count := mode_count,
             expected_count := m.expected_active_count })
      else
        (m1, { has_mismatch := false, detected_count := current_count,
               mode_count := mode_count,
               expected_count := m.expected_active_count })

/-- Claim C4: headcount mismatch suppression semantics.  A check that
finds `mode ≠ expected` within the alert cooldown returns
`has_mismatch = false` while still returning the computed current and
mode counts, and leaves `last_alert_time` unchanged; any check returning
`has_mismatch = false` leaves `last_alert_time` unchanged; and
`last_alert_time` changes only on a check that returns
`has_mismatch = true`, which sets it to the check time. -/
theorem headcount_suppression
    (m : HeadcountMonitor) (t : ℚ) :
    (m.count_history ≠ [] →
      counterMode (m.count_history.map Prod.snd) ≠ m.expected_active_count →
      t - m.last_alert_time < m.alert_cooldown_s →
      (m.check_headcount t).2.has_mismatch = false
      ∧ (m.check_headcount t).2.detected_count
          = ((m.count_history.map Prod.snd).getLast?).getD 0
      ∧ (m.check_headcount t).2.mode_count
          = counterMode (m.count_history.map Prod.snd)
      ∧ (m.check_headcount t).1.last_alert_time = m.last_alert_time)
    ∧ ((m.check_headcount t).2.has_mismatch = false →
        (m.check_headcount t).1.last_alert_time = m.last_alert_time)
    ∧ ((m.check_headcount t).1.last_alert_time ≠ m.last_alert_time →
        (m.check_headcount t).2.has_mismatch = true
        ∧ (m.check_headcount t).1.last_alert_time = t) := by
  by_cases h1 : m.count_history = []
  · simp [HeadcountMonitor.check_headcount, h1]
  · have h2 : ¬ m.count_history.map Prod.snd = [] := by
      simpa using h1
    by_cases h3 : counterMode (m.count_history.map Prod.snd) = m.expected_active_count
    · simp [HeadcountMonitor.check_headcount, h1, h2, h3]
    · by_cases h4 : t - m.last_alert_time < m.alert_cooldown_s
      · simp [HeadcountMonitor.check_headcount, h1, h2, h3, h4]
      · simp only [HeadcountMonitor.check_headcount, if_neg h1, if_neg h2,
          if_pos h3, if_neg h4]
        refine ⟨fun _ _ hc => absurd hc h4, fun hmm => ?_, fun _ => ?_⟩
        · simp at hmm
        · simp

theorem mem_counterKeys : ∀ (l seen : List Int) (x : Int),
    x ∈ counterKeys seen l ↔ x ∈ l ∧ x ∉ seen := by
  intro l
  induction l with
  | nil => simp [counterKeys]
  | cons a xs ih =>
      intro seen x
      by_cases ha : a ∈ seen
      · rw [show counterKeys seen (a :: xs) = counterKeys seen xs from by
          simp [counterKeys, ha]]
        rw [ih seen x]
        constructor
        · rintro ⟨h1, h2⟩
          exact ⟨List.mem_cons_of_mem _ h1, h2⟩
        · rintro ⟨h1, h2⟩
          rcases List.mem_cons.mp h1 with h1 | h1
          · exact absurd (h1 ▸ ha) h2
          · exact ⟨h1, h2⟩
      · rw [show counterKeys seen (a :: xs) = a :: counterKeys (a :: seen) xs from by
          simp [counterKeys, ha]]
        constructor
        · intro hx
          rcases List.mem_cons.mp hx with hx | hx
          · exact ⟨hx ▸ List.mem_cons_self _ _, hx ▸ ha⟩
          · obtain ⟨h1, h2⟩ := (ih (a :: seen) x).mp hx
            exact ⟨List.mem_cons_of_mem _ h1,
              fun hs => h2 (List.mem_cons_of_mem _ hs)⟩
        · rintro ⟨h1, h2⟩
          by_cases hxa : x = a
          · exact hxa ▸ List.mem_cons_self _ _
          · rcases List.mem_cons.mp h1 with h1 | h1
            · exact absurd h1 hxa
            · refine List.mem_cons_of_mem _ ((ih (a :: seen) x).mpr ⟨h1, ?_⟩)
              intro hs
              rcases List.mem_cons.mp hs with hs | hs
              · exact hxa hs
              · exact h2 hs

theorem counterKeys_nodup : ∀ (l seen : List Int), (counterKeys seen l).Nodup := by
  intro l
  induction l with
  | nil => intro seen; simp [counterKeys]
  | cons a xs ih =>
      intro seen
      by_cases ha : a ∈ seen
      · simpa [counterKeys, ha] using ih seen
      · rw [show counterKeys seen (a :: xs) = a :: counterKeys (a :: seen) xs from by
          simp [counterKeys, ha]]
        refine List.nodup_cons.mpr ⟨?_, ih (a :: seen)⟩
        intro hmem
        exact ((mem_counterKeys xs (a :: seen) a).mp hmem).2 (List.mem_cons_self _ _)

/-- `counterKeys` lists values in the order of their first occurrence. -/
theorem counterKeys_order : ∀ (l seen : List Int) (x y : Int),
    x ∈ l → x ∉ seen → y ∉ seen → x ≠ y →
    l.indexOf x < l.indexOf y →
    (counterKeys seen l).indexOf x < (counterKeys seen l).indexOf y := by
  intro l
  induction l with
  | nil => intro seen x y hx; simp at hx
  | cons a xs ih =>
      intro seen x y hx hxs hys hxy hord
      by_cases hxa : x = a
      · subst hxa
        have hya : y ≠ x := fun h => hxy h.symm
        rw [show counterKeys seen (x :: xs) = x :: counterKeys (x :: seen) xs from by
          simp [counterKeys, hxs]]
        rw [List.indexOf_cons_self]
        rw [List.indexOf_cons_ne _ hxy]
        exact Nat.succ_pos _
      · by_cases hya : y = a
        · subst hya
          rw [List.indexOf_cons_self] at hord
          exact absurd hord (Nat.not_lt_zero _)
        · have hax : a ≠ x := fun h => hxa h.symm
          have hay : a ≠ y := fun h => hya h.symm
          rw [List.indexOf_cons_ne _ hax, List.indexOf_cons_ne _ hay] at hord
          have hord' : xs.indexOf x < xs.indexOf y := Nat.succ_lt_succ_iff.mp hord
          have hx' : x ∈ xs := by
            rcases List.mem_cons.mp hx with h | h
            · exact absurd h hxa
            · exact h
          by_cases ha : a ∈ seen
          · rw [show counterKeys seen (a :: xs) = counterKeys seen xs from by
              simp [counterKeys, ha]]
            exact ih seen x y hx' hxs hys hxy hord'
          · rw [show counterKeys seen (a :: xs) = a :: counterKeys (a :: seen) xs from by
              simp [counterKeys, ha]]
            rw [List.indexOf_cons_ne _ hax, List.indexOf_cons_ne _ hay]
            refine Nat.succ_lt_succ ?_
            refine ih (a :: seen) x y hx' ?_ ?_ hxy hord'
            · intro h
              rcases List.mem_cons.mp h with h | h
              · exact hxa h
              · exact hxs h
            · intro h
              rcases List.mem_cons.mp h with h | h
              · exact hya h
              · exact hys h

theorem pickMode_eq_or_mem (l : List Int) : ∀ (cands : List Int) (best : Int),
    pickMode l best cands = best ∨ pickMode l best cands ∈ cands := by
  intro cands
  induction cands with
  | nil => intro best; exact Or.inl rfl
  | cons c cs ih =>
      intro best
      simp only [pickMode]
      by_cases h : l.count best < l.count c
      · rw [if_pos h]
        rcases ih c with h' | h'
        · exact Or.inr (by rw [h']; exact List.mem_cons_self _ _)
        · exact Or.inr (List.mem_cons_of_mem _ h')
      · rw [if_neg h]
        rcases ih best with h' | h'
        · exact Or.inl h'
        · exact Or.inr (List.mem_cons_of_mem _ h')

theorem pickMode_count_ge (l : List Int) : ∀ (cands : List Int) (best : Int),
    l.count best ≤ l.count (pickMode l best cands)
    ∧ ∀ x ∈ cands, l.count x ≤ l.count (pickMode l best cands) := by
  intro cands
  induction cands with
  | nil => intro best; exact ⟨le_rfl, by simp⟩
  | cons c cs ih =>
      intro best
      simp only [pickMode]
      by_cases h : l.count best < l.count c
      · rw [if_pos h]
        obtain ⟨h1, h2⟩ := ih c
        refine ⟨le_of_lt (lt_of_lt_of_le h h1), ?_⟩
        intro x hx
        rcases List.mem_cons.mp hx with hx | hx
        · exact hx ▸ h1
        · exact h2 x hx
      · rw [if_neg h]
        obtain ⟨h1, h2⟩ := ih best
        refine ⟨h1, ?_⟩
        intro x hx
        rcases List.mem_cons.mp hx with hx | hx
        · exact hx ▸ le_trans (not_lt.mp h) h1
        · exact h2 x hx

/-- The selected mode splits the candidate list so that every value
strictly before it has strictly smaller multiplicity: the scan keeps the
earlier value on ties. -/
theorem pickMode_split (l : List Int) : ∀ (cands : List Int) (best : Int),
    ∃ l1 l2, best :: cands = l1 ++ pickMode l best cands :: l2
      ∧ ∀ y ∈ l1, l.count y < l.count (pickMode l best cands) := by
  intro cands
  induction cands with
  | nil => intro best; exact ⟨[], [], rfl, by simp⟩
  | cons c cs ih =>
      intro best
      simp only [pickMode]
      by_cases h : l.count best < l.count c
      · rw [if_pos h]
        obtain ⟨l1, l2, heq, hb⟩ := ih c
        refine ⟨best :: l1, l2, by rw [List.cons_append, ← heq], ?_⟩
        intro y hy
        rcases List.mem_cons.mp hy with hy | hy
        · exact hy ▸ lt_of_lt_of_le h (pickMode_count_ge l cs c).1
        · exact hb y hy
      · rw [if_neg h]
        obtain ⟨l1, l2, heq, hb⟩ := ih best
        cases l1 with
        | nil =>
            have heq' : best = pickMode l best cs ∧ cs = l2 := by
              rw [List.nil_append] at heq
              exact ⟨(List.cons.injEq .. ▸ heq).1, (List.cons.injEq .. ▸ heq).2⟩
            refine ⟨[], c :: cs, ?_, by simp⟩
            rw [List.nil_append, ← heq'.1]
        | cons b0 l1' =>
            have heq' : best = b0 ∧ cs = l1' ++ pickMode l best cs :: l2 := by
              rw [List.cons_append] at heq
              exact ⟨(List.cons.injEq .. ▸ heq).1, (List.cons.injEq .. ▸ heq).2⟩
            have hbest : l.count best < l.count (pickMode l best cs) := by
              have := hb b0 (List.mem_cons_self _ _)
              rw [← heq'.1] at this
              exact this
            refine ⟨best :: c :: l1', l2, ?_, ?_⟩
            · rw [show best :: c :: cs
                  = best :: c :: (l1' ++ pickMode l best cs :: l2) from by
                rw [← heq'.2]]
              simp [List.cons_append]
            · intro y hy
              rcases List.mem_cons.mp hy with hy | hy
              · exact hy ▸ hbest
              · rcases List.mem_cons.mp hy with hy | hy
                · exact hy ▸ lt_of_le_of_lt (not_lt.mp h) hbest
                · exact lt_of_lt_of_le (hb y (List.mem_cons_of_mem _ hy))
                    le_rfl

theorem indexOf_append_cons_self (m : Int) : ∀ (l1 l2 : List Int), m ∉ l1 →
    (l1 ++ m :: l2).indexOf m = l1.length := by
  intro l1
  induction l1 with
  | nil => intro l2 _; simp [List.indexOf_cons_self]
  | cons b l1' ih =>
      intro l2 hm
      have hbm : b ≠ m := fun h => hm (h ▸ List.mem_cons_self _ _)
      rw [List.cons_append, List.indexOf_cons_ne _ hbm,
        ih l2 (fun h => hm (List.mem_cons_of_mem _ h))]
      rfl

theorem indexOf_append_of_not_mem_left (x : Int) : ∀ (l1 rest : List Int), x ∉ l1 →
    (l1 ++ rest).indexOf x = l1.length + rest.indexOf x := by
  intro l1
  induction l1 with
  | nil => intro rest _; simp
  | cons b l1' ih =>
      intro rest hx
      have hbx : b ≠ x := fun h => hx (h ▸ List.mem_cons_self _ _)
      rw [List.cons_append, List.indexOf_cons_ne _ hbx,
        ih rest (fun h => hx (List.mem_cons_of_mem _ h))]
      simp [Nat.succ_add]

/-- The mode characterisation: `counterMode l` is a member with maximal
multiplicity, and among the maximal values it is the one first
encountered in `l`. -/
theorem counterMode_spec (l : List Int) (hne : l ≠ []) :
    counterMode l ∈ l
    ∧ (∀ x ∈ l, l.count x ≤ l.count (counterMode l))
    ∧ (∀ x ∈ l, l.count x = l.count (counterMode l) →
        l.indexOf (counterMode l) ≤ l.indexOf x) := by
  have hfo : ∀ z, z ∈ firstOcc l ↔ z ∈ l := by
    intro z
    rw [firstOcc, mem_counterKeys]
    simp
  obtain ⟨c, cs, hcs⟩ : ∃ c cs, firstOcc l = c :: cs := by
    cases hl : firstOcc l with
    | nil =>
        obtain ⟨a, xs, rfl⟩ := List.exists_cons_of_ne_nil hne
        rw [firstOcc] at hl
        simp [counterKeys] at hl
    | cons c cs => exact ⟨c, cs, rfl⟩
  have hmode : counterMode l = pickMode l c cs := by
    rw [counterMode, hcs]
  have hmem : counterMode l ∈ l := by
    rw [hmode]
    rcases pickMode_eq_or_mem l cs c with h | h
    · rw [h]
      exact (hfo c).mp (by rw [hcs]; exact List.mem_cons_self c cs)
    · exact (hfo _).mp (by rw [hcs]; exact List.mem_cons_of_mem _ h)
  refine ⟨hmem, ?_, ?_⟩
  · intro x hx
    have hxfo : x ∈ c :: cs := hcs ▸ (hfo x).mpr hx
    rw [hmode]
    rcases List.mem_cons.mp hxfo with h | h
    · exact h ▸ (pickMode_count_ge l cs c).1
    · exact (pickMode_count_ge l cs c).2 x h
  · intro x hx hcnt
    by_cases hxm : x = counterMode l
    · rw [hxm]
    · by_contra hcon
      have hord : l.indexOf x < l.indexOf (counterMode l) := by
        omega
      have hfo_ord : (firstOcc l).indexOf x < (firstOcc l).indexOf (counterMode l) := by
        rw [firstOcc]
        exact counterKeys_order l [] x (counterMode l) hx (by simp) (by simp) hxm
          hord
      obtain ⟨l1, l2, heq, hb⟩ := pickMode_split l cs c
      rw [← hmode] at heq hb
      have hnodup : (firstOcc l).Nodup := counterKeys_nodup l []
      have hnotmem : counterMode l ∉ l1 := by
        intro hmem1
        have := hb _ hmem1
        exact lt_irrefl _ this
      have hidx : (firstOcc l).indexOf (counterMode l) = l1.length := by
        rw [hcs, heq]
        exact indexOf_append_cons_self _ l1 l2 hnotmem
      have hxl1 : x ∈ l1 := by
        by_contra hxl1
        have : (firstOcc l).indexOf x
            = l1.length + (counterMode l :: l2).indexOf x := by
          rw [hcs, heq]
          exact indexOf_append_of_not_mem_left x l1 _ hxl1
        omega
      have := hb x hxl1
      omega

/-- Claim C5: mode correctness with insertion-order tie-break.  For a
non-empty retained history (and a check that is not suppressed by the
alert cooldown), `check_headcount` returns as `mode_count` the
most frequent value among the retained samples, ties broken in favour of
the value first encountered in insertion order; the mismatch flag is
exactly `mode ≠ expected`; the most recent sample is returned as
`detected_count` but is not the condition checked; and `record_count`
retains exactly the samples at least `now - sample_window_s` old, so
pruned samples never influence the mode. -/
theorem headcount_mode_correctness
    (m : HeadcountMonitor) (t : ℚ)
    (hne : m.count_history ≠ [])
    (hcool : ¬ t - m.last_alert_time < m.alert_cooldown_s) :
    ((m.check_headcount t).2.mode_count
        = counterMode (m.count_history.map Prod.snd)
      ∧ (m.check_headcount t).2.mode_count ∈ m.count_history.map Prod.snd
      ∧ (∀ x ∈ m.count_history.map Prod.snd,
          (m.count_history.map Prod.snd).count x
            ≤ (m.count_history.map Prod.snd).count (m.check_headcount t).2.mode_count)
      ∧ (∀ x ∈ m.count_history.map Prod.snd,
          (m.count_history.map Prod.snd).count x
              = (m.count_history.map Prod.snd).count (m.check_headcount t).2.mode_count →
          (m.count_history.map Prod.snd).indexOf (m.check_headcount t).2.mode_count
            ≤ (m.count_history.map Prod.snd).indexOf x))
    ∧ ((m.check_headcount t).2.has_mismatch = true
        ↔ (m.check_headcount t).2.mode_count ≠ m.expected_active_count)
    ∧ (m.check_headcount t).2.detected_count
        = ((m.count_history.map Prod.snd).getLast?).getD 0
    ∧ (∀ (c : Int) (ts : ℚ), (m.record_count c ts).count_history
        = (m.count_history ++ [(ts, c)]).filter fun tc =>
            decide (ts - m.sample_window_s ≤ tc.1)) := by
  have h2 : ¬ m.count_history.map Prod.snd = [] := by
    simpa using hne
  have hcnt : m.count_history.map Prod.snd ≠ [] := h2
  have hbase : (m.check_headcount t).2.mode_count
        = counterMode (m.count_history.map Prod.snd)
      ∧ ((m.check_headcount t).2.has_mismatch = true
        ↔ counterMode (m.count_history.map Prod.snd) ≠ m.expected_active_count)
      ∧ (m.check_headcount t).2.detected_count
        = ((m.count_history.map Prod.snd).getLast?).getD 0 := by
    by_cases h3 : counterMode (m.count_history.map Prod.snd) = m.expected_active_count
    · simp [HeadcountMonitor.check_headcount, hne, h2, h3]
    · simp [HeadcountMonitor.check_headcount, hne, h2, h3, hcool]
  obtain ⟨hm, hmm, hdet⟩ := hbase
  obtain ⟨hs1, hs2, hs3⟩ := counterMode_spec (m.count_history.map Prod.snd) hcnt
  refine ⟨⟨hm, ?_, ?_, ?_⟩, ?_, hdet, fun c ts => rfl⟩
  · rw [hm]
    exact hs1
  · rw [hm]
    exact hs2
  · rw [hm]
    exact hs3
  · rw [hm]
    exact hmm

/-- A monitor state for the witnesses: expected 5, one retained sample of
4, cooldown 600, last alert at 0. -/
def headcountW : HeadcountMonitor :=
  { expected_active_count := 5, check_interval_s := 300, sample_window_s := 300,
    count_history := [(0, 4)], last_check_time := 0, last_alert_time := 0,
    alert_cooldown_s := 600 }

/-- Witness for C4: a check at `t = 10` (10 s after the last alert, inside
the 600 s cooldown) that finds mode 4 ≠ expected 5 reports no mismatch,
still reports the counts, and leaves `last_alert_time` untouched. -/
theorem headcount_suppression_witness :
    (HeadcountMonitor.check_headcount headcountW 10).2.has_mismatch = false
    ∧ (HeadcountMonitor.check_headcount headcountW 10).2.mode_count = 4
    ∧ (HeadcountMonitor.check_headcount headcountW 10).2.detected_count = 4
    ∧ (HeadcountMonitor.check_headcount headcountW 10).1.last_alert_time = 0 := by
  have h := (headcount_suppression headcountW 10).1 (by simp [headcountW])
    (by decide) (by norm_num [headcountW])
  exact ⟨h.1, h.2.2.1.trans (by decide), h.2.1.trans (by decide), h.2.2.2⟩

/-- The spec §8 scenario monitor: expected 5, samples `[5,5,5,4,5]`. -/
def headcount5W : HeadcountMonitor :=
  { expected_active_count := 5, check_interval_s := 300, sample_window_s := 300,
    count_history := [(0, 5), (1, 5), (2, 5), (3, 4), (4, 5)],
    last_check_time := 0, last_alert_time := 0, alert_cooldown_s := 600 }

/-- Witness for C5, the spec scenario: samples `[5,5,5,4,5]` give mode 5
and no mismatch even though the most recent sample is 4 ≠ 5 — the mode is
the condition checked, not the current count.  (The most recent sample of
`headcount5W` is 5; `detected_count` returns it.) -/
theorem headcount_mode_correctness_witness :
    (HeadcountMonitor.check_headcount headcount5W 1000).2.mode_count = 5
    ∧ (HeadcountMonitor.check_headcount headcount5W 1000).2.has_mismatch = false := by
  have h := headcount_mode_correctness headcount5W 1000 (by simp [headcount5W])
    (by norm_num [headcount5W])
  have hmv : (HeadcountMonitor.check_headcount headcount5W 1000).2.mode_count = 5 :=
    h.1.1.trans (by decide)
  refine ⟨hmv, ?_⟩
  have hiff := h.2.1
  rw [hmv] at hiff
  cases hB : (HeadcountMonitor.check_headcount headcount5W 1000).2.has_mismatch
  · rfl
  · exact absurd (by decide : (5 : Int) = 5) (hiff.mp hB)

/-! ## Vehicle registry (`src/registry.py`)

The JSON load/save of the source is I/O and is not modelled; the
in-memory state (`vehicles`, `label_to_id`, `next_id`) and the matching
logic are.  As with proximity, `dist = sqrt(...)` compared against
`best_dist` and against the radius `500` is embedded squared
(`sqrt` is monotone and both sides are nonnegative). -/

/-- Vehicle registry entry (`VehicleEntry`). -/
structure VehicleEntry where
  id : Int
  label : String
  status : String
  last_seen : Option String := none
  location : Option (ℚ × ℚ) := none
deriving Repr, DecidableEq

/-- The in-memory state of `VehicleRegistry`. -/
structure VehicleRegistry where
  vehicles : List (Int × VehicleEntry)
  label_to_id : List (String × List Int)
  next_id : Int
deriving Repr, DecidableEq

/-- `VehicleRegistry.update_vehicle`.  `datetime.now().isoformat()` is
impure; the caller passes the timestamp string `now` explicitly. -/
def VehicleRegistry.update_vehicle (reg : VehicleRegistry) (vehicle_id : Int)
    (location : Option (ℚ × ℚ)) (now : String) : VehicleRegistry :=
  match lookupA reg.vehicles vehicle_id with
  | none => reg
  | some veh =>
      let veh' : VehicleEntry :=
        { veh with
            last_seen := some now
            location := match location with
              | none => veh.location
              | some l => some l }
      { reg with vehicles := insertA reg.vehicles vehicle_id veh' }

/-- Squared distance from `location` to candidate `vid`'s stored location;
`none` when the candidate has no stored location (the loop skips it) or is
not in `vehicles` (unreachable under the registry invariant — the source
indexes `self.vehicles[vid]` directly). -/
def distOf (vehicles : List (Int × VehicleEntry)) (location : ℚ × ℚ)
    (vid : Int) : Option ℚ :=
  match lookupA vehicles vid with
  | none => none
  | some veh =>
      match veh.location with
      | none => none
      | some vloc => some (distSqPt location vloc)

/-- One step of the `for vid in candidates:` loop: keep the running best
`(best_id, best_dist)`; a strictly smaller distance replaces it
(`if dist < best_dist`), starting from `best_id = None`. -/
def bestStep (d : Int → Option ℚ) (best : Option (Int × ℚ)) (vid : Int) :
    Option (Int × ℚ) :=
  match d vid with
  | none => best
  | some x =>
      match best with
      | none => some (vid, x)
      | some (bid, bd) => if x < bd then some (vid, x) else some (bid, bd)

/-- The candidate scan of `match_vehicle`. -/
def bestCandidate (d : Int → Option ℚ) (cands : List Int) : Option (Int × ℚ) :=
  cands.foldl (bestStep d) none

/-- The squared matching radius (`best_dist < 500` in pixels). -/
def matchRadiusSq : ℚ := 500 ^ 2

/-- The resolution phase of `match_vehicle`: `some id` when an existing
vehicle of this label lies within the matching radius. -/
def resolveMatch (reg : VehicleRegistry) (label : String) (location : ℚ × ℚ) :
    Option Int :=
  match lookupA reg.label_to_id label with
  | none => none
  | some candidates =>
      match bestCandidate (distOf reg.vehicles location) candidates with
      | none => none
      | some (best_id, best_dist_sq) =>
          if best_dist_sq < matchRadiusSq then some best_id else none

/-- `VehicleRegistry.match_vehicle`: match to the nearest stored vehicle
of the same label within the radius (updating its `last_seen` and
`location`), otherwise create a new runtime entry with status `active`
under a fresh id, indexed by label.  Returns the id next to the new
registry state. -/
def VehicleRegistry.match_vehicle (reg : VehicleRegistry) (label : String)
    (location : ℚ × ℚ) (now : String) : Int × VehicleRegistry :=
  match resolveMatch reg label location with
  | some best_id => (best_id, reg.update_vehicle best_id (some location) now)
  | none =>
      let new_id := reg.next_id
      let entry : VehicleEntry :=
        { id := new_id, label := label, status := "active",
          last_seen := some now, location := some location }
      let ids := (lookupA reg.label_to_id label).getD []
      (new_id,
       { vehicles := insertA reg.vehicles new_id entry,
         label_to_id := insertA reg.label_to_id label (ids ++ [new_id]),
         next_id := reg.next_id + 1 })

/-- Registry invariant: candidate lists are duplicate-free and every id in
them, as well as every stored vehicle id, is below `next_id` (ids are
allocated monotonically and `next_id` is seeded above the maximum loaded
id). -/
def VehicleRegistry.WF (reg : VehicleRegistry) : Prop :=
  (∀ pr ∈ reg.label_to_id, pr.2.Nodup ∧ ∀ i ∈ pr.2, i < reg.next_id)
  ∧ ∀ pr ∈ reg.vehicles, pr.1 < reg.next_id

instance (reg : VehicleRegistry) : Decidable reg.WF := by
  unfold VehicleRegistry.WF
  infer_instance

theorem distOf_nonneg (vehicles : List (Int × VehicleEntry)) (loc : ℚ × ℚ)
    (vid : Int) (x : ℚ) (h : distOf vehicles loc vid = some x) : 0 ≤ x := by
  rcases hlk : lookupA vehicles vid with _ | veh
  · simp [distOf, hlk] at h
  · rcases hloc : veh.location with _ | vloc
    · simp [distOf, hlk, hloc] at h
    · simp only [distOf, hlk, hloc, Option.some.injEq] at h
      rw [← h]
      exact distSqPt_nonneg _ _

/-- Forward characterisation of the scan: a result `(b, db)` either was
already the accumulator and nothing beats it, or the candidate list splits
at the winning occurrence of `b`, with all earlier distances strictly
larger and all later ones no smaller (strict improvement keeps the
earliest minimum). -/
theorem bestFold_spec (d : Int → Option ℚ) :
    ∀ (cands : List Int) (acc : Option (Int × ℚ)) (b : Int) (db : ℚ),
    cands.foldl (bestStep d) acc = some (b, db) →
    (acc = some (b, db) ∧ ∀ v ∈ cands, ∀ x, d v = some x → db ≤ x)
    ∨ ∃ l1 l2, cands = l1 ++ b :: l2 ∧ d b = some db
        ∧ (∀ a av, acc = some (a, av) → db < av)
        ∧ (∀ v ∈ l1, ∀ x, d v = some x → db < x)
        ∧ (∀ v ∈ l2, ∀ x, d v = some x → db ≤ x) := by
  intro cands
  induction cands with
  | nil =>
      intro acc b db h
      exact Or.inl ⟨h, by simp⟩
  | cons c cs ih =>
      intro acc b db h
      rw [List.foldl_cons] at h
      rcases ih (bestStep d acc c) b db h with ⟨hacc, hbound⟩ | ⟨l1, l2, hcs, hdb, haccb, h1, h2⟩
      · -- the accumulator after `c` is already the final best
        rcases hd : d c with _ | x
        · rw [show bestStep d acc c = acc from by simp [bestStep, hd]] at hacc
          refine Or.inl ⟨hacc, ?_⟩
          intro v hv y hy
          rcases List.mem_cons.mp hv with hv | hv
          · rw [hv, hd] at hy
            exact absurd hy (by simp)
          · exact hbound v hv y hy
        · cases acc with
          | none =>
              rw [show bestStep d none c = some (c, x) from by
                simp [bestStep, hd]] at hacc
              obtain ⟨e1, e2⟩ := Prod.mk.injEq .. ▸ Option.some.inj hacc
              subst e1
              subst e2
              exact Or.inr ⟨[], cs, by rw [List.nil_append], hd,
                by simp, by simp, hbound⟩
          | some p =>
              obtain ⟨a, av⟩ := p
              by_cases hlt : x < av
              · rw [show bestStep d (some (a, av)) c = some (c, x) from by
                  simp [bestStep, hd, hlt]] at hacc
                obtain ⟨e1, e2⟩ := Prod.mk.injEq .. ▸ Option.some.inj hacc
                subst e1
                subst e2
                refine Or.inr ⟨[], cs, by rw [List.nil_append], hd, ?_,
                  by simp, hbound⟩
                intro a' av' hav'
                obtain ⟨f1, f2⟩ := Prod.mk.injEq .. ▸ Option.some.inj hav'
                rw [← f2]
                exact hlt
              · rw [show bestStep d (some (a, av)) c = some (a, av) from by
                  simp [bestStep, hd, hlt]] at hacc
                obtain ⟨e1, e2⟩ := Prod.mk.injEq .. ▸ Option.some.inj hacc
                subst e1
                subst e2
                refine Or.inl ⟨rfl, ?_⟩
                intro v hv y hy
                rcases List.mem_cons.mp hv with hv | hv
                · rw [hv, hd] at hy
                  rw [← Option.some.inj hy]
                  exact not_lt.mp hlt
                · exact hbound v hv y hy
      · -- the final best was found inside `cs`
        have haccb' : ∀ a av, acc = some (a, av) → db < av := by
          intro a av hav
          rcases hd : d c with _ | x
          · exact haccb a av (by simp [bestStep, hd, hav])
          · by_cases hlt : x < av
            · have := haccb c x (by simp [bestStep, hd, hav, hlt])
              exact lt_trans this hlt
            · exact haccb a av (by simp [bestStep, hd, hav, hlt])
        have hc' : ∀ y, d c = some y → db < y := by
          intro y hdc
          rcases hacc' : acc with _ | p
          · exact haccb c y (by simp [bestStep, hdc, hacc'])
          · obtain ⟨a, av⟩ := p
            by_cases hlt : y < av
            · exact haccb c y (by simp [bestStep, hdc, hacc', hlt])
            · have := haccb' a av hacc'
              exact lt_of_lt_of_le this (not_lt.mp hlt)
        refine Or.inr ⟨c :: l1, l2, by rw [List.cons_append, hcs], hdb, haccb', ?_, h2⟩
        intro v hv y hy
        rcases List.mem_cons.mp hv with hv | hv
        · rw [hv] at hy
          exact hc' y hy
        · exact h1 v hv y hy

theorem bestFold_gt (d : Int → Option ℚ) (db : ℚ) :
    ∀ (l1 : List Int) (acc : Option (Int × ℚ)),
    (∀ a av, acc = some (a, av) → db < av) →
    (∀ v ∈ l1, ∀ x, d v = some x → db < x) →
    ∀ a av, l1.foldl (bestStep d) acc = some (a, av) → db < av := by
  intro l1
  induction l1 with
  | nil => exact fun acc hacc _ a av h => hacc a av h
  | cons c cs ih =>
      intro acc hacc hl a av h
      rw [List.foldl_cons] at h
      refine ih (bestStep d acc c) ?_ (fun v hv => hl v (List.mem_cons_of_mem _ hv)) a av h
      intro a' av' hav'
      rcases hd : d c with _ | x
      · exact hacc a' av' (by rw [← hav']; simp [bestStep, hd])
      · have hx : db < x := hl c (List.mem_cons_self _ _) x hd
        rcases hacc' : acc with _ | p
        · rw [show bestStep d acc c = some (c, x) from by
            simp [bestStep, hd, hacc']] at hav'
          obtain ⟨_, e2⟩ := Prod.mk.injEq .. ▸ Option.some.inj hav'
          rw [← e2]
          exact hx
        · obtain ⟨a0, av0⟩ := p
          by_cases hlt : x < av0
          · rw [show bestStep d acc c = some (c, x) from by
              simp [bestStep, hd, hacc', hlt]] at hav'
            obtain ⟨_, e2⟩ := Prod.mk.injEq .. ▸ Option.some.inj hav'
            rw [← e2]
            exact hx
          · rw [show bestStep d acc c = some (a0, av0) from by
              simp [bestStep, hd, hacc', hlt]] at hav'
            obtain ⟨_, e2⟩ := Prod.mk.injEq .. ▸ Option.some.inj hav'
            rw [← e2]
            exact hacc a0 av0 hacc'

theorem bestFold_keep (d : Int → Option ℚ) (b : Int) (db : ℚ) :
    ∀ (l2 : List Int),
    (∀ v ∈ l2, ∀ x, d v = some x → db ≤ x) →
    l2.foldl (bestStep d) (some (b, db)) = some (b, db) := by
  intro l2
  induction l2 with
  | nil => intro _; rfl
  | cons c cs ih =>
      intro hl
      rw [List.foldl_cons]
      have hstep : bestStep d (some (b, db)) c = some (b, db) := by
        rcases hd : d c with _ | x
        · simp [bestStep, hd]
        · have := hl c (List.mem_cons_self _ _) x hd
          simp [bestStep, hd, not_lt.mpr this]
      rw [hstep]
      exact ih (fun v hv => hl v (List.mem_cons_of_mem _ hv))

/-- Reverse construction: if `b`'s distance is `db`, everything before it
is strictly farther and everything after no closer (and the accumulator,
if any, is strictly farther), the scan returns exactly `(b, db)`. -/
theorem bestFold_build (d : Int → Option ℚ) (l1 : List Int)
    (acc : Option (Int × ℚ)) (b : Int) (db : ℚ) (l2 : List Int)
    (hdb : d b = some db)
    (hacc : ∀ a av, acc = some (a, av) → db < av)
    (h1 : ∀ v ∈ l1, ∀ x, d v = some x → db < x)
    (h2 : ∀ v ∈ l2, ∀ x, d v = some x → db ≤ x) :
    (l1 ++ b :: l2).foldl (bestStep d) acc = some (b, db) := by
  rw [List.foldl_append, List.foldl_cons]
  have hstep : bestStep d (l1.foldl (bestStep d) acc) b = some (b, db) := by
    rcases hacc1 : l1.foldl (bestStep d) acc with _ | p
    · simp [bestStep, hdb]
    · obtain ⟨a, av⟩ := p
      have : db < av := bestFold_gt d db l1 acc hacc h1 a av hacc1
      simp [bestStep, hdb, this]
  rw [hstep]
  exact bestFold_keep d b db l2 h2

theorem bestFold_congr (d1 d2 : Int → Option ℚ) :
    ∀ (cands : List Int), (∀ v ∈ cands, d1 v = d2 v) →
    ∀ acc, cands.foldl (bestStep d1) acc = cands.foldl (bestStep d2) acc := by
  intro cands
  induction cands with
  | nil => intro _ acc; rfl
  | cons c cs ih =>
      intro hagree acc
      rw [List.foldl_cons, List.foldl_cons]
      rw [show bestStep d1 acc c = bestStep d2 acc c from by
        unfold bestStep
        rw [hagree c (List.mem_cons_self _ _)]]
      exact ih (fun v hv => hagree v (List.mem_cons_of_mem _ hv)) _

theorem match_vehicle_matched (reg : VehicleRegistry) (label : String)
    (loc : ℚ × ℚ) (now : String) (bid : Int)
    (h : resolveMatch reg label loc = some bid) :
    VehicleRegistry.match_vehicle reg label loc now
      = (bid, reg.update_vehicle bid (some loc) now) := by
  simp [VehicleRegistry.match_vehicle, h]

theorem match_vehicle_created (reg : VehicleRegistry) (label : String)
    (loc : ℚ × ℚ) (now : String)
    (h : resolveMatch reg label loc = none) :
    VehicleRegistry.match_vehicle reg label loc now
      = (reg.next_id,
         { vehicles := insertA reg.vehicles reg.next_id
             { id := reg.next_id, label := label, status := "active",
               last_seen := some now, location := some loc },
           label_to_id := insertA reg.label_to_id label
             (((lookupA reg.label_to_id label).getD []) ++ [reg.next_id]),
           next_id := reg.next_id + 1 }) := by
  simp [VehicleRegistry.match_vehicle, h]

theorem WF_lookup_next_none (reg : VehicleRegistry) (hwf : reg.WF) :
    lookupA reg.vehicles reg.next_id = none :=
  lookupA_eq_none_of_forall fun kv hm heq =>
    absurd (heq ▸ hwf.2 kv hm) (lt_irrefl _)

theorem WF_cand_bound (reg : VehicleRegistry) (hwf : reg.WF)
    (label : String) (cands : List Int)
    (hlab : lookupA reg.label_to_id label = some cands) :
    cands.Nodup ∧ ∀ i ∈ cands, i < reg.next_id :=
  hwf.1 (label, cands) (mem_keys_of_lookupA hlab)

theorem distOf_insertA_ne (vehicles : List (Int × VehicleEntry))
    (k : Int) (e : VehicleEntry) (loc : ℚ × ℚ) (v : Int) (h : v ≠ k) :
    distOf (insertA vehicles k e) loc v = distOf vehicles loc v := by
  unfold distOf
  rw [lookupA_insertA_ne _ _ _ _ h]

theorem distOf_insertA_self (vehicles : List (Int × VehicleEntry))
    (k : Int) (e : VehicleEntry) (loc : ℚ × ℚ)
    (hloc : e.location = some loc) :
    distOf (insertA vehicles k e) loc k = some 0 := by
  simp only [distOf, lookupA_insertA_self, hloc, distSqPt_self]

theorem matchRadiusSq_pos : (0 : ℚ) < matchRadiusSq := by
  norm_num [matchRadiusSq]

/-- After a call that created a fresh entry at `loc`, a second call with
the same label and location matches that entry and returns the same id. -/
theorem match_after_create (reg : VehicleRegistry) (label : String)
    (loc : ℚ × ℚ) (now1 now2 : String) (hwf : reg.WF)
    (hres : resolveMatch reg label loc = none) :
    (VehicleRegistry.match_vehicle
        (VehicleRegistry.match_vehicle reg label loc now1).2 label loc now2).1
      = reg.next_id := by
  have hcall1 : (VehicleRegistry.match_vehicle reg label loc now1).2
      = { vehicles := insertA reg.vehicles reg.next_id
            { id := reg.next_id, label := label, status := "active",
              last_seen := some now1, location := some loc },
          label_to_id := insertA reg.label_to_id label
            (((lookupA reg.label_to_id label).getD []) ++ [reg.next_id]),
          next_id := reg.next_id + 1 } := by
    rw [match_vehicle_created reg label loc now1 hres]
  rw [hcall1]
  have hd2N : distOf (insertA reg.vehicles reg.next_id
      { id := reg.next_id, label := label, status := "active",
        last_seen := some now1, location := some loc }) loc reg.next_id
      = some 0 :=
    distOf_insertA_self _ _ _ _ rfl
  have hlab1 : lookupA (insertA reg.label_to_id label
      (((lookupA reg.label_to_id label).getD []) ++ [reg.next_id])) label
      = some (((lookupA reg.label_to_id label).getD []) ++ [reg.next_id]) :=
    lookupA_insertA_self _ _ _
  have hbc2 : bestCandidate (distOf (insertA reg.vehicles reg.next_id
      { id := reg.next_id, label := label, status := "active",
        last_seen := some now1, location := some loc }) loc)
      ((((lookupA reg.label_to_id label).getD []) ++ [reg.next_id]))
      = some (reg.next_id, 0) := by
    rcases hlab : lookupA reg.label_to_id label with _ | cands
    · simp only [Option.getD_none, List.nil_append]
      simp [bestCandidate, bestStep, hd2N]
    · simp only [Option.getD_some]
      have hagree : ∀ v ∈ cands,
          distOf reg.vehicles loc v
            = distOf (insertA reg.vehicles reg.next_id
                { id := reg.next_id, label := label, status := "active",
                  last_seen := some now1, location := some loc }) loc v := by
        intro v hv
        have hvlt := (WF_cand_bound reg hwf label cands hlab).2 v hv
        exact (distOf_insertA_ne _ _ _ _ _
          (fun hvn => absurd (hvn ▸ hvlt) (lt_irrefl _))).symm
      have hfold := (bestFold_congr _ _ cands hagree none).symm
      rw [bestCandidate, List.foldl_append, hfold]
      rcases hbc : bestCandidate (distOf reg.vehicles loc) cands with _ | p
      · rw [bestCandidate] at hbc
        rw [hbc]
        simp [bestStep, hd2N]
      · obtain ⟨bid, bd⟩ := p
        have hnr : ¬ bd < matchRadiusSq := by
          intro hr
          simp only [resolveMatch, hlab, hbc, if_pos hr] at hres
          exact absurd hres (by simp)
        have hbd0 : 0 < bd :=
          lt_of_lt_of_le matchRadiusSq_pos (not_lt.mp hnr)
        rw [bestCandidate] at hbc
        rw [hbc]
        simp [bestStep, hd2N, hbd0]
  have hres2 : resolveMatch
      { vehicles := insertA reg.vehicles reg.next_id
          { id := reg.next_id, label := label, status := "active",
            last_seen := some now1, location := some loc },
        label_to_id := insertA reg.label_to_id label
          (((lookupA reg.label_to_id label).getD []) ++ [reg.next_id]),
        next_id := reg.next_id + 1 } label loc = some reg.next_id := by
    simp only [resolveMatch, hlab1, hbc2, if_pos matchRadiusSq_pos]
  rw [match_vehicle_matched _ _ _ now2 _ hres2]

/-- After a call that matched an existing entry (updating its location to
`loc`), a second call with the same label and location returns the same
id: the updated entry is now at distance `0` and every other candidate is
at least as far as it was. -/
theorem match_after_match (reg : VehicleRegistry) (label : String)
    (loc : ℚ × ℚ) (now1 now2 : String) (hwf : reg.WF) (bid : Int)
    (hres : resolveMatch reg label loc = some bid) :
    (VehicleRegistry.match_vehicle
        (VehicleRegistry.match_vehicle reg label loc now1).2 label loc now2).1
      = bid := by
  rcases hlab : lookupA reg.label_to_id label with _ | cands
  · simp only [resolveMatch, hlab] at hres
    exact absurd hres (by simp)
  rcases hbc : bestCandidate (distOf reg.vehicles loc) cands with _ | p
  · simp only [resolveMatch, hlab, hbc] at hres
    exact absurd hres (by simp)
  obtain ⟨bid0, bd⟩ := p
  by_cases hr : bd < matchRadiusSq
  · have hbid0 : bid0 = bid := by
      simp only [resolveMatch, hlab, hbc, if_pos hr, Option.some.injEq] at hres
      exact hres
    subst hbid0
    have hspec := bestFold_spec (distOf reg.vehicles loc) cands none bid0 bd hbc
    rcases hspec with ⟨habs, _⟩ | ⟨l1, l2, hsplit, hdbid, _, hl1, hl2⟩
    · exact absurd habs (by simp)
    rcases hlk : lookupA reg.vehicles bid0 with _ | veh
    · simp [distOf, hlk] at hdbid
    have hcall1 : (VehicleRegistry.match_vehicle reg label loc now1).2
        = { reg with
            vehicles := insertA reg.vehicles bid0
              { veh with last_seen := some now1, location := some loc } } := by
      rw [match_vehicle_matched _ _ _ now1 _ hres]
      simp only [VehicleRegistry.update_vehicle, hlk]
    rw [hcall1]
    have hnd := (WF_cand_bound reg hwf label cands hlab).1
    have hndsplit : (l1 ++ bid0 :: l2).Nodup := hsplit ▸ hnd
    obtain ⟨hnd1, hnd2, hdisj⟩ := List.nodup_append.mp hndsplit
    have hbidl1 : bid0 ∉ l1 := fun hm => hdisj hm (List.mem_cons_self _ _)
    have hbidl2 : bid0 ∉ l2 := (List.nodup_cons.mp hnd2).1
    have hd2bid : distOf (insertA reg.vehicles bid0
        { veh with last_seen := some now1, location := some loc }) loc bid0
        = some 0 :=
      distOf_insertA_self _ _ _ _ rfl
    have hbd0 : 0 ≤ bd := distOf_nonneg _ _ _ _ hdbid
    have hfar1 : ∀ v ∈ l1, ∀ x, distOf (insertA reg.vehicles bid0
        { veh with last_seen := some now1, location := some loc }) loc v
        = some x → (0 : ℚ) < x := by
      intro v hv x hx
      have hvne : v ≠ bid0 := fun he => hbidl1 (he ▸ hv)
      rw [distOf_insertA_ne _ _ _ _ _ hvne] at hx
      exact lt_of_le_of_lt hbd0 (hl1 v hv x hx)
    have hfar2 : ∀ v ∈ l2, ∀ x, distOf (insertA reg.vehicles bid0
        { veh with last_seen := some now1, location := some loc }) loc v
        = some x → (0 : ℚ) ≤ x := by
      intro v hv x hx
      have hvne : v ≠ bid0 := fun he => hbidl2 (he ▸ hv)
      rw [distOf_insertA_ne _ _ _ _ _ hvne] at hx
      exact le_trans hbd0 (hl2 v hv x hx)
    have hbuild := bestFold_build (distOf (insertA reg.vehicles bid0
        { veh with last_seen := some now1, location := some loc }) loc)
      l1 none bid0 0 l2 hd2bid (by simp) hfar1 hfar2
    have hbc2 : bestCandidate (distOf (insertA reg.vehicles bid0
        { veh with last_seen := some now1, location := some loc }) loc) cands
        = some (bid0, 0) := by
      rw [bestCandidate, hsplit]
      exact hbuild
    have hres2 : resolveMatch
        { reg with
          vehicles := insertA reg.vehicles bid0
            { veh with last_seen := some now1, location := some loc } }
        label loc = some bid0 := by
      simp only [resolveMatch, hlab, hbc2, if_pos matchRadiusSq_pos]
    rw [match_vehicle_matched _ _ _ now2 _ hres2]
  · simp only [resolveMatch, hlab, hbc, if_neg hr] at hres
    exact absurd hres (by simp)

/-- Claim C9: vehicle identity stability.  Under the registry invariant:
calling `match_vehicle` twice with the same label and location returns
the same id both times (the first call records the location, the second
finds that record as the strictly nearest candidate); and when every
candidate of the label with a known location is at least the matching
radius away (candidates without a location are skipped, not errors), the
call returns the freshly allocated `next_id` — an id not previously in
the registry — with a new record of status `active` indexed under the
label. -/
theorem registry_identity_stability (reg : VehicleRegistry) (label : String)
    (loc : ℚ × ℚ) (now1 now2 now3 : String) (hwf : reg.WF) :
    (VehicleRegistry.match_vehicle
        (VehicleRegistry.match_vehicle reg label loc now1).2 label loc now2).1
      = (VehicleRegistry.match_vehicle reg label loc now1).1
    ∧ ((∀ ids, lookupA reg.label_to_id label = some ids →
          ∀ i ∈ ids, ∀ x, distOf reg.vehicles loc i = some x → matchRadiusSq ≤ x) →
        (VehicleRegistry.match_vehicle reg label loc now3).1 = reg.next_id
        ∧ lookupA reg.vehicles reg.next_id = none
        ∧ lookupA (VehicleRegistry.match_vehicle reg label loc now3).2.vehicles
            reg.next_id
            = some { id := reg.next_id, label := label, status := "active",
                     last_seen := some now3, location := some loc }
        ∧ ∃ ids', lookupA (VehicleRegistry.match_vehicle reg label loc now3).2.label_to_id
            label = some ids' ∧ reg.next_id ∈ ids') := by
  constructor
  · rcases hres : resolveMatch reg label loc with _ | bid
    · have h1 : (VehicleRegistry.match_vehicle reg label loc now1).1 = reg.next_id := by
        rw [match_vehicle_created _ _ _ now1 hres]
      rw [h1]
      exact match_after_create reg label loc now1 now2 hwf hres
    · have h1 : (VehicleRegistry.match_vehicle reg label loc now1).1 = bid := by
        rw [match_vehicle_matched _ _ _ now1 _ hres]
      rw [h1]
      exact match_after_match reg label loc now1 now2 hwf bid hres
  · intro hfar
    have hresn : resolveMatch reg label loc = none := by
      rcases hlab : lookupA reg.label_to_id label with _ | cands
      · simp [resolveMatch, hlab]
      · rcases hbc : bestCandidate (distOf reg.vehicles loc) cands with _ | p
        · simp [resolveMatch, hlab, hbc]
        · obtain ⟨bid, bd⟩ := p
          have hspec := bestFold_spec _ cands none bid bd hbc
          rcases hspec with ⟨habs, _⟩ | ⟨l1, l2, hsplit, hdbid, _, _, _⟩
          · exact absurd habs (by simp)
          · have hbidmem : bid ∈ cands := by
              rw [hsplit]
              exact List.mem_append_right _ (List.mem_cons_self _ _)
            have hge := hfar cands hlab bid hbidmem bd hdbid
            simp [resolveMatch, hlab, hbc, not_lt.mpr hge]
    have hcreated := match_vehicle_created reg label loc now3 hresn
    refine ⟨by rw [hcreated], WF_lookup_next_none reg hwf, ?_, ?_⟩
    · rw [show (VehicleRegistry.match_vehicle reg label loc now3).2
          = { vehicles := insertA reg.vehicles reg.next_id
                { id := reg.next_id, label := label, status := "active",
                  last_seen := some now3, location := some loc },
              label_to_id := insertA reg.label_to_id label
                (((lookupA reg.label_to_id label).getD []) ++ [reg.next_id]),
              next_id := reg.next_id + 1 } from by rw [hcreated]]
      exact lookupA_insertA_self _ _ _
    · rw [show (VehicleRegistry.match_vehicle reg label loc now3).2
          = { vehicles := insertA reg.vehicles reg.next_id
                { id := reg.next_id, label := label, status := "active",
                  last_seen := some now3, location := some loc },
              label_to_id := insertA reg.label_to_id label
                (((lookupA reg.label_to_id label).getD []) ++ [reg.next_id]),
              next_id := reg.next_id + 1 } from by rw [hcreated]]
      exact ⟨_, lookupA_insertA_self _ _ _,
        List.mem_append_right _ (List.mem_cons_self _ _)⟩

/-- An empty registry seeded at id 1000. -/
def regW : VehicleRegistry := { vehicles := [], label_to_id := [], next_id := 1000 }

/-- Witness for C9: on the empty registry, two successive matches of a
truck at the same location return the same id, and the far-candidate
condition holds vacuously so a match allocates the fresh id 1000. -/
theorem registry_identity_stability_witness :
    (VehicleRegistry.match_vehicle
        (VehicleRegistry.match_vehicle regW "truck" (100, 200) "t1").2
        "truck" (100, 200) "t2").1
      = (VehicleRegistry.match_vehicle regW "truck" (100, 200) "t1").1
    ∧ (VehicleRegistry.match_vehicle regW "truck" (100, 200) "t3").1 = 1000 := by
  have h := registry_identity_stability regW "truck" (100, 200) "t1" "t2" "t3"
    ⟨by simp [regW], by simp [regW]⟩
  refine ⟨h.1, ?_⟩
  have h2 := h.2 (fun ids hids => by simp [regW, lookupA] at hids)
  exact h2.1

end SiteOps
